import Mathlib

/-!
Verification of the ownership-wrapper library `smartptr.h` (CryptoPP).

The C++ header defines five pointer wrappers (`simple_ptr`, `member_ptr`,
`value_ptr`, `clonable_ptr`, `counted_ptr`) and a container
(`vector_member_ptrs`).  We embed them shallowly: the heap is a partial map
from addresses (`Nat`) to objects, allocation hands out a fresh address from a
monotone counter (so addresses are never reused and a `freed` log records each
`delete`), and every wrapper stores the address it holds (`none` models a null
pointer).  Each C++ member function becomes a Lean function on this explicit
state, translated line by line from the source.
-/

set_option autoImplicit false

namespace SmartPtr

/-- A heap object wrapped by the pointers.  `val` is the payload; the
`m_referenceCount` field is the intrusive count that `counted_ptr` manipulates
(an unsigned integer field of `T`; the other wrappers never touch it, and a
copy construction / `clone()` of the object copies both fields). -/
structure Obj where
  val : Nat
  m_referenceCount : Nat
deriving DecidableEq

/-- The mutable store: a partial heap, the next fresh address (monotone, so
addresses are never recycled), and a log of every executed `delete`. -/
structure State where
  heap : Nat → Option Obj
  next : Nat
  freed : List Nat

/-- The empty store. -/
def initState : State :=
  { heap := fun _ => none, next := 0, freed := [] }

/-- Allocation `new T(...)`: place the object at the fresh address and return it. -/
def State.alloc (s : State) (o : Obj) : State × Nat :=
  ({ heap := fun b => if b = s.next then some o else s.heap b,
     next := s.next + 1, freed := s.freed }, s.next)

/-- A store through an object pointer (field assignment on `*a`). -/
def State.write (s : State) (a : Nat) (o : Obj) : State :=
  { s with heap := fun b => if b = a then some o else s.heap b }

/-- Deallocation `delete a`: the object disappears from the heap and the deallocation is
logged. -/
def State.free (s : State) (a : Nat) : State :=
  { heap := fun b => if b = a then none else s.heap b,
    next := s.next, freed := s.freed ++ [a] }

/-! ## `counted_ptr<T>` (smartptr.h lines 142-229)

State of a wrapper instance: the single raw pointer `m_p`.  Branches of the
source that dereference a pointer not backed by a live allocation are
undefined behaviour in C++; the embedding makes them inert (no store), and
every theorem below supplies the liveness hypotheses under which they are not
taken. -/

structure counted_ptr where
  m_p : Option Nat
deriving DecidableEq

/-- Constructor `counted_ptr(T *p) : m_p(p) { if (m_p) m_p->m_referenceCount = 1; }` -/
def counted_ptr.ctorRaw (s : State) (p : Option Nat) : State × counted_ptr :=
  match p with
  | none => (s, ⟨none⟩)
  | some a =>
    match s.heap a with
    | some o => (s.write a { o with m_referenceCount := 1 }, ⟨some a⟩)
    | none => (s, ⟨some a⟩)

/-- The idiomatic construction `counted_ptr<T> p(new T(v))`: allocate a fresh
object (whose count field starts at 0) and adopt it with the raw-pointer
constructor. -/
def counted_ptr.ctorNew (s : State) (v : Nat) : State × counted_ptr :=
  let (s1, a) := s.alloc { val := v, m_referenceCount := 0 }
  counted_ptr.ctorRaw s1 (some a)

/-- Copy constructor `counted_ptr(const counted_ptr &rhs) : m_p(rhs.m_p)
{ if (m_p) m_p->m_referenceCount++; }` -/
def counted_ptr.copyCtor (s : State) (rhs : counted_ptr) : State × counted_ptr :=
  match rhs.m_p with
  | none => (s, ⟨none⟩)
  | some a =>
    match s.heap a with
    | some o => (s.write a { o with m_referenceCount := o.m_referenceCount + 1 }, ⟨some a⟩)
    | none => (s, ⟨some a⟩)

/-- Release step `if (m_p && --m_p->m_referenceCount == 0) delete m_p;` — the destructor
body, also the release step of `attach` and `operator=`.  The count is an
unsigned integer, so the decrement hits 0 exactly when the count was 1. -/
def counted_ptr.releaseHeld (s : State) (w : counted_ptr) : State :=
  match w.m_p with
  | none => s
  | some a =>
    match s.heap a with
    | some o =>
      if o.m_referenceCount = 1 then s.free a
      else s.write a { o with m_referenceCount := o.m_referenceCount - 1 }
    | none => s

/-- Member `counted_ptr<T>::attach(const T &r)` (lines 188-202): release the held
object, then either clone `r` (when its count is 0) or share it. -/
def counted_ptr.attach (s : State) (w : counted_ptr) (r : Nat) : State × counted_ptr :=
  let s1 := counted_ptr.releaseHeld s w
  match s1.heap r with
  | some o =>
    if o.m_referenceCount = 0 then
      let (s2, t) := s1.alloc o
      (s2.write t { o with m_referenceCount := 1 }, ⟨some t⟩)
    else
      (s1.write r { o with m_referenceCount := o.m_referenceCount + 1 }, ⟨some r⟩)
  | none => (s1, ⟨some r⟩)

/-- Constructor `counted_ptr(const T &r) : m_p(0) { attach(r); }` -/
def counted_ptr.ctorVal (s : State) (r : Nat) : State × counted_ptr :=
  counted_ptr.attach s ⟨none⟩ r

/-- Mutable `counted_ptr<T>::get()` (lines 204-214): the copy-on-write
trigger.  Returns the new state, the updated wrapper, and the returned raw
pointer. -/
def counted_ptr.get (s : State) (w : counted_ptr) : State × counted_ptr × Option Nat :=
  match w.m_p with
  | none => (s, w, none)
  | some a =>
    match s.heap a with
    | some o =>
      if o.m_referenceCount > 1 then
        let (s1, t) := s.alloc o
        let s2 := s1.write a { o with m_referenceCount := o.m_referenceCount - 1 }
        let s3 := s2.write t { o with m_referenceCount := 1 }
        (s3, ⟨some t⟩, some t)
      else (s, w, some a)
    | none => (s, w, some a)

/-- Assignment `counted_ptr<T>::operator=(const counted_ptr &rhs)` (lines 216-229).
`self` models the instance-identity test `this == &rhs`; a caller passes
`true` exactly when left- and right-hand side are the same wrapper object. -/
def counted_ptr.assign (s : State) (lhs rhs : counted_ptr) (self : Bool) :
    State × counted_ptr :=
  if self then (s, lhs)
  else if lhs.m_p = rhs.m_p then (s, lhs)
  else
    let s1 := counted_ptr.releaseHeld s lhs
    match rhs.m_p with
    | none => (s1, ⟨none⟩)
    | some a =>
      match s1.heap a with
      | some o =>
        (s1.write a { o with m_referenceCount := o.m_referenceCount + 1 }, ⟨some a⟩)
      | none => (s1, ⟨some a⟩)

/-- Non-const `T* operator->() { return get(); }` (line 155). -/
def counted_ptr.arrow (s : State) (w : counted_ptr) : State × counted_ptr × Option Nat :=
  counted_ptr.get s w

/-- Non-const `T& operator*() { return *m_p; }` (line 152): hands out a
mutable reference to the held object with no state change; we model the
reference as the address it designates. -/
def counted_ptr.starMut (w : counted_ptr) : Option Nat :=
  w.m_p

/-- Const `const T& operator*() const { return *m_p; }`: the observable
object. -/
def counted_ptr.starConst (s : State) (w : counted_ptr) : Option Obj :=
  match w.m_p with
  | none => none
  | some a => s.heap a

/-- A caller mutating the payload through the reference returned by the
non-const `operator*`. -/
def counted_ptr.mutateThroughStar (s : State) (w : counted_ptr) (v : Nat) : State :=
  match w.m_p with
  | none => s
  | some a =>
    match s.heap a with
    | some o => s.write a { o with val := v }
    | none => s

/-! ## `simple_ptr<T>` (lines 18-46) and `member_ptr<T>` (lines 48-86)

Both are exclusive owners of one raw pointer; neither copyable nor
assignable.  `simple_ptr`'s destructor nulls its storage after deleting (the
wrapper value it leaves behind models the zeroed storage, so a second
destructor run on the same storage is observable); `member_ptr` adds access,
`release` and `reset`. -/

structure simple_ptr where
  m_p : Option Nat
deriving DecidableEq

/-- Destructor `~simple_ptr() { delete m_p; *((volatile T**)(&m_p)) = 0; }` — returns the
post-destruction storage alongside the state so the double-destruction
scenario can run the destructor again on it. -/
def simple_ptr.dtor (s : State) (w : simple_ptr) : State × simple_ptr :=
  match w.m_p with
  | some a => (s.free a, ⟨none⟩)
  | none => (s, ⟨none⟩)

structure member_ptr where
  m_p : Option Nat
deriving DecidableEq

/-- Member `T* member_ptr<T>::release() { old_p = m_p; m_p = 0; return old_p; }` -/
def member_ptr.release (w : member_ptr) : Option Nat × member_ptr :=
  (w.m_p, ⟨none⟩)

/-- Destructor `~member_ptr() { delete m_p; }` (`delete` of a null pointer is a no-op). -/
def member_ptr.dtor (s : State) (w : member_ptr) : State :=
  match w.m_p with
  | some a => s.free a
  | none => s

/-- Member `void member_ptr<T>::reset(T *p) { delete m_p; m_p = p; }` -/
def member_ptr.reset (s : State) (w : member_ptr) (p : Option Nat) :
    State × member_ptr :=
  match w.m_p with
  | some a => (s.free a, ⟨p⟩)
  | none => (s, ⟨p⟩)

/-! ## `value_ptr<T>` (lines 90-114)

A `member_ptr` whose copies deep-copy the held object with `new T(*rhs.m_p)`.
(`clonable_ptr`, lines 118-138, is the same construction with `Clone()` in
place of the copy constructor; no claim singles it out.) -/

structure value_ptr where
  m_p : Option Nat
deriving DecidableEq

/-- Constructor `value_ptr(const T &obj) : member_ptr<T>(new T(obj))` -/
def value_ptr.ctorVal (s : State) (o : Obj) : State × value_ptr :=
  let (s1, a) := s.alloc o
  (s1, ⟨some a⟩)

/-- Copy constructor `value_ptr(const value_ptr &rhs)
: member_ptr<T>(rhs.m_p ? new T(*rhs.m_p) : NULL)`.  Copying from a wrapper
whose pointer is dangling would read freed memory (undefined behaviour);
the embedding then adopts null. -/
def value_ptr.copyCtor (s : State) (rhs : value_ptr) : State × value_ptr :=
  match rhs.m_p with
  | none => (s, ⟨none⟩)
  | some a =>
    match s.heap a with
    | some o =>
      let (s1, b) := s.alloc o
      (s1, ⟨some b⟩)
    | none => (s, ⟨none⟩)

/-- Assignment `value_ptr<T>::operator=` (lines 105-114): guarded by `this != &rhs`
(`self` models that identity test), then `old_p = m_p;
m_p = rhs.m_p ? new T(*rhs.m_p) : NULL; delete old_p;` — the copy of the
right-hand object is made **before** the left-hand object is freed. -/
def value_ptr.assign (s : State) (lhs rhs : value_ptr) (self : Bool) :
    State × value_ptr :=
  if self then (s, lhs)
  else
    match rhs.m_p with
    | none =>
      match lhs.m_p with
      | some a => (s.free a, ⟨none⟩)
      | none => (s, ⟨none⟩)
    | some b =>
      match s.heap b with
      | some ob =>
        let (s1, c) := s.alloc ob
        match lhs.m_p with
        | some a => (s1.free a, ⟨some c⟩)
        | none => (s1, ⟨some c⟩)
      | none =>
        match lhs.m_p with
        | some a => (s.free a, ⟨none⟩)
        | none => (s, ⟨none⟩)

/-- Equality `bool value_ptr<T>::operator==(const value_ptr &rhs)` (lines 99-102):
`(!m_p && !rhs.m_p) || (m_p && rhs.m_p && *m_p == *rhs.m_p)`.  `T::operator==`
compares the payload values. -/
def value_ptr.eq (s : State) (x y : value_ptr) : Bool :=
  match x.m_p, y.m_p with
  | none, none => true
  | some a, some b =>
    match s.heap a, s.heap b with
    | some oa, some ob => oa.val == ob.val
    | _, _ => false
  | _, _ => false

/-- A caller mutating the object a `value_ptr` holds (through `operator*`). -/
def value_ptr.mutate (s : State) (w : value_ptr) (v : Nat) : State :=
  match w.m_p with
  | none => s
  | some a =>
    match s.heap a with
    | some o => s.write a { o with val := v }
    | none => s

/-! ## `vector_member_ptrs<T>` (lines 233-263)

A heap array of `member_ptr<T>` slots; each slot is the `Option Nat` it
holds.  `operator[]` guards the index with `CRYPTOPP_ASSERT`. -/

structure vector_member_ptrs where
  slots : List (Option Nat)

/-- Member `size_t size() const { return m_size; }` -/
def vector_member_ptrs.size (v : vector_member_ptrs) : Nat :=
  v.slots.length

/-- Modelled from the spec: `CRYPTOPP_ASSERT` comes from `trap.h`, which is
not part of the given source; per the spec a violated assertion "fails
fatally via an assertion trap (not a recoverable error)".  We model the trap
as `Except.error` — no slot value is ever produced past a failed assertion —
and a passed assertion as transparent. -/
def cryptoppAssert (cond : Prop) [Decidable cond] {α : Type} (k : α) : Except Unit α :=
  if cond then Except.ok k else Except.error ()

/-- Access `member_ptr<T>& operator[](size_t index)
{ CRYPTOPP_ASSERT(index < m_size); return m_ptr[index]; }` — the const
overload (line 243) has the same body on a const reference.  The result is a
reference to the slot; reading it changes no ownership, so the operation is a
pure function of the container. -/
def vector_member_ptrs.index (v : vector_member_ptrs) (i : Nat) :
    Except Unit (Option Nat) :=
  cryptoppAssert (i < v.size) (v.slots.getD i none)

/-- One iteration of the `resize` transfer loop,
`newPtr[i].reset(this->m_ptr[i].release())`: release slot `i` of the old
array (nulling it), then `reset` slot `i` of the new array to the released
pointer (freeing whatever that slot held — always null here, but the delete
is modelled faithfully). -/
def resizeStep (acc : State × List (Option Nat) × List (Option Nat)) (i : Nat) :
    State × List (Option Nat) × List (Option Nat) :=
  let (st, np, op) := acc
  let released := op.getD i none
  let st1 := match np.getD i none with
    | some q => st.free q
    | none => st
  (st1, np.set i released, op.set i none)

/-- Member `vector_member_ptrs<T>::resize(size_t newSize)` (lines 247-255):
`newPtr = new member_ptr<T>[newSize]` (value-initialised, all null); the
transfer loop for `i < min(m_size, newSize)`; then `delete [] m_ptr`, which
destroys the old slots (in reverse construction order) and frees whichever
pointers they still hold. -/
def vector_member_ptrs.resize (s : State) (v : vector_member_ptrs)
    (newSize : Nat) : State × vector_member_ptrs :=
  let start : State × List (Option Nat) × List (Option Nat) :=
    (s, List.replicate newSize none, v.slots)
  let fin := (List.range (min v.slots.length newSize)).foldl resizeStep start
  let s1 := (fin.2.2.reverse.filterMap id).foldl State.free fin.1
  (s1, ⟨fin.2.1⟩)

/-! ## Reachable `counted_ptr` configurations

A configuration is the store together with the wrapper instances created so
far: slot `i` of `ptrs` is `some w` while wrapper number `i` is live with
contents `w`, and `none` once it has been destroyed.  `Step` is one use of
the public interface, each operation applied within its contract (indices
name live wrappers; `attach`'s argument is a live object — passing a deleted
one reads freed memory in the source). -/

structure Config where
  st : State
  ptrs : List (Option counted_ptr)

/-- The number of live wrapper instances currently holding address `a`. -/
def holders (ps : List (Option counted_ptr)) (a : Nat) : Nat :=
  ps.countP (fun w => decide (w = some ⟨some a⟩))

/-- One public operation of `counted_ptr`, performed on a configuration. -/
inductive Step : Config → Config → Prop where
  | ctorNew (c : Config) (v : Nat) :
      Step c ⟨(counted_ptr.ctorNew c.st v).1,
              c.ptrs ++ [some (counted_ptr.ctorNew c.st v).2]⟩
  | copyCtor (c : Config) (i : Nat) (w : counted_ptr)
      (hi : c.ptrs[i]? = some (some w)) :
      Step c ⟨(counted_ptr.copyCtor c.st w).1,
              c.ptrs ++ [some (counted_ptr.copyCtor c.st w).2]⟩
  | dtor (c : Config) (i : Nat) (w : counted_ptr)
      (hi : c.ptrs[i]? = some (some w)) :
      Step c ⟨counted_ptr.releaseHeld c.st w, c.ptrs.set i none⟩
  | assign (c : Config) (i j : Nat) (wi wj : counted_ptr)
      (hi : c.ptrs[i]? = some (some wi)) (hj : c.ptrs[j]? = some (some wj)) :
      Step c ⟨(counted_ptr.assign c.st wi wj (decide (i = j))).1,
              c.ptrs.set i (some (counted_ptr.assign c.st wi wj (decide (i = j))).2)⟩
  | get (c : Config) (i : Nat) (w : counted_ptr)
      (hi : c.ptrs[i]? = some (some w)) :
      Step c ⟨(counted_ptr.get c.st w).1,
              c.ptrs.set i (some (counted_ptr.get c.st w).2.1)⟩
  | allocObj (c : Config) (v : Nat) :
      Step c ⟨(c.st.alloc { val := v, m_referenceCount := 0 }).1, c.ptrs⟩
  | attach (c : Config) (i : Nat) (w : counted_ptr) (r : Nat) (o : Obj)
      (hi : c.ptrs[i]? = some (some w))
      (hr : (counted_ptr.releaseHeld c.st w).heap r = some o) :
      Step c ⟨(counted_ptr.attach c.st w r).1,
              c.ptrs.set i (some (counted_ptr.attach c.st w r).2)⟩

/-- Configurations built from the empty store by the public operations. -/
inductive Reachable : Config → Prop where
  | init : Reachable ⟨initState, []⟩
  | step {c c' : Config} : Reachable c → Step c c' → Reachable c'

/-- The ownership invariant of the shared-pointer design: every live object's
embedded count equals the number of live wrappers holding its address; live
wrappers only point at live objects; addresses at or past the allocation
cursor are unused; the `delete` log has no duplicates (no double free),
contains only dead addresses, and only addresses that were once allocated. -/
structure Invariant (c : Config) : Prop where
  hcount : ∀ a o, c.st.heap a = some o →
    o.m_referenceCount = holders c.ptrs a
  hlive : ∀ (k : Nat) (w : counted_ptr) (a : Nat),
    c.ptrs[k]? = some (some w) → w.m_p = some a →
    (c.st.heap a).isSome
  hfresh : ∀ a, c.st.next ≤ a → c.st.heap a = none
  hnodup : c.st.freed.Nodup
  hfreedDead : ∀ a, a ∈ c.st.freed → c.st.heap a = none
  hfreedLt : ∀ a, a ∈ c.st.freed → a < c.st.next

/-! ## List bookkeeping lemmas -/

theorem countP_set {α : Type} (p : α → Bool) (l : List α) (i : Nat) (x y : α)
    (hi : l[i]? = some x) :
    (l.set i y).countP p + (if p x then 1 else 0)
      = l.countP p + (if p y then 1 else 0) := by
  induction l generalizing i with
  | nil => simp at hi
  | cons a l ih =>
    cases i with
    | zero =>
      simp at hi
      subst hi
      simp [List.countP_cons]
      omega
    | succ i =>
      simp at hi
      have h := ih i hi
      simp only [List.set_cons_succ, List.countP_cons]
      omega

theorem two_le_countP {α : Type} (p : α → Bool) (l : List α) (i j : Nat) (x y : α)
    (hne : i ≠ j) (hi : l[i]? = some x) (hj : l[j]? = some y)
    (hx : p x = true) (hy : p y = true) : 2 ≤ l.countP p := by
  induction l generalizing i j with
  | nil => simp at hi
  | cons a l ih =>
    cases i with
    | zero =>
      cases j with
      | zero => exact absurd rfl hne
      | succ j =>
        simp at hi hj
        subst hi
        have h1 : 0 < l.countP p :=
          List.countP_pos_iff.mpr ⟨y, List.mem_iff_getElem?.mpr ⟨j, hj⟩, hy⟩
        have h2 : (a :: l).countP p = l.countP p + 1 := by
          simp [List.countP_cons, hx]
        omega
    | succ i =>
      cases j with
      | zero =>
        simp at hi hj
        subst hj
        have h1 : 0 < l.countP p :=
          List.countP_pos_iff.mpr ⟨x, List.mem_iff_getElem?.mpr ⟨i, hi⟩, hx⟩
        have h2 : (a :: l).countP p = l.countP p + 1 := by
          simp [List.countP_cons, hy]
        omega
      | succ j =>
        simp at hi hj
        have h := ih i j (by omega) hi hj
        simp [List.countP_cons]
        omega

theorem set_getElem_self {α : Type} (l : List α) (i : Nat) (x : α)
    (hi : l[i]? = some x) : l.set i x = l := by
  induction l generalizing i with
  | nil => simp at hi
  | cons a l ih =>
    cases i with
    | zero => simp at hi; subst hi; rfl
    | succ i => simp at hi; simp [ih i hi]

theorem holders_append (ps : List (Option counted_ptr)) (x : Option counted_ptr)
    (a : Nat) :
    holders (ps ++ [x]) a
      = holders ps a + (if x = some ⟨some a⟩ then 1 else 0) := by
  simp [holders, List.countP_append, List.countP_cons]

theorem holders_set (ps : List (Option counted_ptr)) (i : Nat)
    (x y : Option counted_ptr) (a : Nat) (hi : ps[i]? = some x) :
    holders (ps.set i y) a + (if x = some ⟨some a⟩ then 1 else 0)
      = holders ps a + (if y = some ⟨some a⟩ then 1 else 0) := by
  have h := countP_set (fun w => decide (w = some ⟨some a⟩)) ps i x y hi
  simpa [holders] using h

theorem one_le_holders (ps : List (Option counted_ptr)) (i : Nat) (a : Nat)
    (hi : ps[i]? = some (some ⟨some a⟩)) : 1 ≤ holders ps a :=
  List.countP_pos_iff.mpr ⟨some ⟨some a⟩, List.mem_iff_getElem?.mpr ⟨i, hi⟩, by simp⟩

theorem holders_eq_zero_of_dead (c : Config) (inv : Invariant c) (a : Nat)
    (ha : c.st.heap a = none) : holders c.ptrs a = 0 := by
  by_contra h
  obtain ⟨w, hw, hpw⟩ := List.countP_pos_iff.mp (Nat.pos_of_ne_zero h)
  obtain ⟨k, hk⟩ := List.mem_iff_getElem?.mp hw
  have hw' : w = some ⟨some a⟩ := by simpa using hpw
  subst hw'
  have h2 := inv.hlive k ⟨some a⟩ a hk rfl
  rw [ha] at h2
  simp at h2

/-- Two live wrappers at distinct slots holding the same address force that
address's holder count to at least 2. -/
theorem two_le_holders (ps : List (Option counted_ptr)) (i j : Nat) (a : Nat)
    (hne : i ≠ j) (hi : ps[i]? = some (some ⟨some a⟩))
    (hj : ps[j]? = some (some ⟨some a⟩)) : 2 ≤ holders ps a := by
  unfold holders
  exact two_le_countP _ ps i j _ _ hne hi hj (by simp) (by simp)

/-- Extensionality for stores. -/
theorem State.ext' (s1 s2 : State) (h1 : ∀ b, s1.heap b = s2.heap b)
    (h2 : s1.next = s2.next) (h3 : s1.freed = s2.freed) : s1 = s2 := by
  cases s1
  cases s2
  simp_all
  funext b
  exact h1 b

/-! ## Shapes of `releaseHeld` -/

theorem releaseHeld_null (s : State) : counted_ptr.releaseHeld s ⟨none⟩ = s := rfl

theorem releaseHeld_last (s : State) (a : Nat) (o : Obj) (ha : s.heap a = some o)
    (h1 : o.m_referenceCount = 1) :
    counted_ptr.releaseHeld s ⟨some a⟩ = s.free a := by
  simp [counted_ptr.releaseHeld, ha, h1]

theorem releaseHeld_shared (s : State) (a : Nat) (o : Obj) (ha : s.heap a = some o)
    (h1 : o.m_referenceCount ≠ 1) :
    counted_ptr.releaseHeld s ⟨some a⟩
      = s.write a { o with m_referenceCount := o.m_referenceCount - 1 } := by
  simp [counted_ptr.releaseHeld, ha, h1]

/-! ## Atomic preservation lemmas for the ownership invariant -/

/-- Predicate: `ps'` is `ps` with exactly one more live wrapper, holding address `b`. -/
def AddsHolder (ps ps' : List (Option counted_ptr)) (b : Nat) : Prop :=
  (∀ x, holders ps' x = holders ps x + (if x = b then 1 else 0)) ∧
  (∀ (k : Nat) (w : counted_ptr), ps'[k]? = some (some w) →
     w = ⟨some b⟩ ∨ ∃ k' : Nat, ps[k']? = some (some w))

/-- Predicate: `ps'` is `ps` with exactly one more live wrapper which holds null. -/
def AddsNull (ps ps' : List (Option counted_ptr)) : Prop :=
  (∀ x, holders ps' x = holders ps x) ∧
  (∀ (k : Nat) (w : counted_ptr), ps'[k]? = some (some w) →
     w = ⟨none⟩ ∨ ∃ k' : Nat, ps[k']? = some (some w))

theorem addsHolder_append (ps : List (Option counted_ptr)) (b : Nat) :
    AddsHolder ps (ps ++ [some ⟨some b⟩]) b := by
  unfold AddsHolder
  constructor
  · intro x
    rw [holders_append]
    by_cases hxb : x = b
    · subst hxb; simp
    · have hbx : ¬ b = x := fun h => hxb h.symm
      simp [hxb, hbx]
  · intro k w hk
    rw [List.getElem?_append] at hk
    split at hk
    · exact Or.inr ⟨k, hk⟩
    · left
      rcases Nat.lt_or_ge (k - ps.length) 1 with h | h
      · interval_cases h2 : (k - ps.length)
        · simp [h2] at hk
          exact hk.symm
      · rw [List.getElem?_eq_none (by simpa using h)] at hk
        exact absurd hk (by simp)

theorem addsHolder_set (ps : List (Option counted_ptr)) (i : Nat) (b : Nat)
    (hi : ps[i]? = some none) :
    AddsHolder ps (ps.set i (some ⟨some b⟩)) b := by
  unfold AddsHolder
  constructor
  · intro x
    have h := holders_set ps i none (some ⟨some b⟩) x hi
    by_cases hxb : x = b
    · subst hxb
      simp at h ⊢
      omega
    · have hbx : ¬ b = x := fun h' => hxb h'.symm
      simp [hxb, hbx] at h ⊢
      omega
  · intro k w hk
    by_cases hki : k = i
    · subst hki
      rw [List.getElem?_set] at hk
      simp at hk
      rcases hk with ⟨-, hk⟩
      exact Or.inl hk.symm
    · rw [List.getElem?_set_ne (fun h => hki h.symm)] at hk
      exact Or.inr ⟨k, hk⟩

theorem addsNull_append (ps : List (Option counted_ptr)) :
    AddsNull ps (ps ++ [some ⟨none⟩]) := by
  unfold AddsNull
  constructor
  · intro x
    rw [holders_append]
    simp
  · intro k w hk
    rw [List.getElem?_append] at hk
    split at hk
    · exact Or.inr ⟨k, hk⟩
    · left
      rcases Nat.lt_or_ge (k - ps.length) 1 with h | h
      · interval_cases h2 : (k - ps.length)
        · simp [h2] at hk
          exact hk.symm
      · rw [List.getElem?_eq_none (by simpa using h)] at hk
        exact absurd hk (by simp)

theorem addsNull_set (ps : List (Option counted_ptr)) (i : Nat)
    (hi : ps[i]? = some none) :
    AddsNull ps (ps.set i (some ⟨none⟩)) := by
  unfold AddsNull
  constructor
  · intro x
    have h := holders_set ps i none (some ⟨none⟩) x hi
    simp at h
    omega
  · intro k w hk
    by_cases hki : k = i
    · subst hki
      rw [List.getElem?_set] at hk
      simp at hk
      rcases hk with ⟨-, hk⟩
      exact Or.inl hk.symm
    · rw [List.getElem?_set_ne (fun h => hki h.symm)] at hk
      exact Or.inr ⟨k, hk⟩

theorem lt_next_of_live (s : State) (ps : List (Option counted_ptr))
    (inv : Invariant ⟨s, ps⟩) (a : Nat) (o : Obj) (ha : s.heap a = some o) :
    a < s.next := by
  by_contra h
  have h2 := inv.hfresh a (Nat.le_of_not_lt h)
  rw [ha] at h2
  exact Option.noConfusion h2

theorem not_freed_of_live (s : State) (ps : List (Option counted_ptr))
    (inv : Invariant ⟨s, ps⟩) (a : Nat) (o : Obj) (ha : s.heap a = some o) :
    a ∉ s.freed := fun h => by
  have h2 := inv.hfreedDead a h
  rw [ha] at h2
  exact Option.noConfusion h2

/-- Sharing: bump the count of a live object while one wrapper starts holding
it (copy construction, the sharing branches of `attach` and `operator=`). -/
theorem invariant_adopt (s : State) (ps ps' : List (Option counted_ptr))
    (inv : Invariant ⟨s, ps⟩) (b : Nat) (o : Obj) (hb : s.heap b = some o)
    (hadd : AddsHolder ps ps' b) :
    Invariant ⟨s.write b { o with m_referenceCount := o.m_referenceCount + 1 },
               ps'⟩ := by
  have hbn : b < s.next := lt_next_of_live s ps inv b o hb
  constructor
  · intro c oc hc
    by_cases hcb : c = b
    · subst hcb
      simp [State.write] at hc
      rw [hadd.1 c]
      have h2 := inv.hcount c o hb
      simp [← hc, h2]
    · simp [State.write, hcb] at hc
      rw [hadd.1 c]
      have h2 := inv.hcount c oc hc
      simp [hcb, h2]
  · intro k w a hk hw
    rcases hadd.2 k w hk with h | ⟨k', hk'⟩
    · subst h
      simp at hw
      subst hw
      simp [State.write]
    · have h2 := inv.hlive k' w a hk' hw
      by_cases hab : a = b
      · subst hab; simp [State.write]
      · simp [State.write, hab]
        exact h2
  · intro c hc
    simp [State.write] at hc ⊢
    have hcb : ¬ c = b := by omega
    simp [hcb]
    exact inv.hfresh c hc
  · exact inv.hnodup
  · intro c hc
    have h2 := inv.hfreedDead c hc
    have hcb : ¬ c = b := fun h => by rw [h, hb] at h2; exact Option.noConfusion h2
    simp [State.write, hcb]
    exact h2
  · exact inv.hfreedLt

/-- Adding a live wrapper that holds null changes no count. -/
theorem invariant_addNull (s : State) (ps ps' : List (Option counted_ptr))
    (inv : Invariant ⟨s, ps⟩) (hadd : AddsNull ps ps') :
    Invariant ⟨s, ps'⟩ := by
  constructor
  · intro c oc hc
    rw [hadd.1 c]
    exact inv.hcount c oc hc
  · intro k w a hk hw
    rcases hadd.2 k w hk with h | ⟨k', hk'⟩
    · subst h; simp at hw
    · exact inv.hlive k' w a hk' hw
  · exact inv.hfresh
  · exact inv.hnodup
  · exact inv.hfreedDead
  · exact inv.hfreedLt

/-- A fresh object placed at the allocation cursor with count 1 while one
wrapper starts holding it (construction from `new`, the clone branches of
`attach` and `get`). -/
theorem invariant_clone (s : State) (ps ps' : List (Option counted_ptr))
    (inv : Invariant ⟨s, ps⟩) (v : Nat) (hadd : AddsHolder ps ps' s.next) :
    Invariant ⟨{ heap := fun c => if c = s.next
                   then some { val := v, m_referenceCount := 1 } else s.heap c,
                 next := s.next + 1, freed := s.freed }, ps'⟩ := by
  have hfresh : ∀ a, s.next ≤ a → s.heap a = none := inv.hfresh
  have hfreedLt : ∀ a, a ∈ s.freed → a < s.next := inv.hfreedLt
  have hdead : s.heap s.next = none := hfresh s.next le_rfl
  have h0 : holders ps s.next = 0 := holders_eq_zero_of_dead ⟨s, ps⟩ inv s.next hdead
  constructor
  · intro c oc hc
    by_cases hcn : c = s.next
    · subst hcn
      simp at hc
      rw [hadd.1 s.next]
      simp [← hc, h0]
    · simp [hcn] at hc
      rw [hadd.1 c]
      have h2 := inv.hcount c oc hc
      simp [hcn, h2]
  · intro k w a hk hw
    rcases hadd.2 k w hk with h | ⟨k', hk'⟩
    · subst h
      simp at hw
      subst hw
      simp
    · have h2 := inv.hlive k' w a hk' hw
      by_cases han : a = s.next
      · subst han; simp
      · simp [han]
        exact h2
  · intro c hc
    simp at hc ⊢
    have hcn : ¬ c = s.next := by omega
    simp [hcn]
    exact hfresh c (by omega)
  · exact inv.hnodup
  · intro c hc
    have h2 := inv.hfreedDead c hc
    have h3 := hfreedLt c hc
    have hcn : ¬ c = s.next := by omega
    simp [hcn]
    exact h2
  · intro c hc
    have h3 := hfreedLt c hc
    simp
    omega

/-- A free-standing object (count 0, no owner) enters the heap — the
`new T(v)` a caller later hands to `attach`. -/
theorem invariant_alloc0 (s : State) (ps : List (Option counted_ptr))
    (inv : Invariant ⟨s, ps⟩) (v : Nat) :
    Invariant ⟨(s.alloc { val := v, m_referenceCount := 0 }).1, ps⟩ := by
  have hfresh : ∀ a, s.next ≤ a → s.heap a = none := inv.hfresh
  have hfreedLt : ∀ a, a ∈ s.freed → a < s.next := inv.hfreedLt
  have hdead : s.heap s.next = none := hfresh s.next le_rfl
  have h0 : holders ps s.next = 0 := holders_eq_zero_of_dead ⟨s, ps⟩ inv s.next hdead
  constructor
  · intro c oc hc
    by_cases hcn : c = s.next
    · subst hcn
      simp [State.alloc] at hc
      simp [← hc, h0]
    · simp [State.alloc, hcn] at hc
      exact inv.hcount c oc hc
  · intro k w a hk hw
    have h2 := inv.hlive k w a hk hw
    by_cases han : a = s.next
    · subst han; simp [State.alloc]
    · simp [State.alloc, han]
      exact h2
  · intro c hc
    simp [State.alloc] at hc ⊢
    have hcn : ¬ c = s.next := by omega
    simp [hcn]
    exact hfresh c (by omega)
  · exact inv.hnodup
  · intro c hc
    simp [State.alloc] at hc
    have h2 := inv.hfreedDead c hc
    have h3 := hfreedLt c hc
    have hcn : ¬ c = s.next := by omega
    simp [State.alloc, hcn]
    exact h2
  · intro c hc
    simp [State.alloc] at hc ⊢
    have h3 := hfreedLt c hc
    omega

/-- Destroying a wrapper that holds null. -/
theorem invariant_drop_null (s : State) (ps : List (Option counted_ptr))
    (inv : Invariant ⟨s, ps⟩) (i : Nat) (hi : ps[i]? = some (some ⟨none⟩)) :
    Invariant ⟨s, ps.set i none⟩ := by
  constructor
  · intro b ob hb
    have h := holders_set ps i (some ⟨none⟩) none b hi
    have h2 : ob.m_referenceCount = holders ps b := inv.hcount b ob hb
    simp at h
    show ob.m_referenceCount = holders (ps.set i none) b
    omega
  · intro k w a hk hw
    by_cases hki : k = i
    · subst hki
      rw [List.getElem?_set] at hk
      simp at hk
    · rw [List.getElem?_set_ne (fun h => hki h.symm)] at hk
      exact inv.hlive k w a hk hw
  · exact inv.hfresh
  · exact inv.hnodup
  · exact inv.hfreedDead
  · exact inv.hfreedLt

/-- Destroying the last wrapper of an object: the count was 1, the object is
deleted. -/
theorem invariant_free_drop (s : State) (ps : List (Option counted_ptr))
    (inv : Invariant ⟨s, ps⟩) (i a : Nat) (o : Obj)
    (hi : ps[i]? = some (some ⟨some a⟩)) (ha : s.heap a = some o)
    (h1 : o.m_referenceCount = 1) :
    Invariant ⟨s.free a, ps.set i none⟩ := by
  have hfresh : ∀ b, s.next ≤ b → s.heap b = none := inv.hfresh
  have hfreedLt : ∀ b, b ∈ s.freed → b < s.next := inv.hfreedLt
  have hhold : holders ps a = 1 := by
    have h : o.m_referenceCount = holders ps a := inv.hcount a o ha
    omega
  have han : a < s.next := lt_next_of_live s ps inv a o ha
  have hnf : a ∉ s.freed := not_freed_of_live s ps inv a o ha
  constructor
  · intro b ob hb
    by_cases hba : b = a
    · subst hba
      simp [State.free] at hb
    · simp [State.free, hba] at hb
      have h2 : ob.m_referenceCount = holders ps b := inv.hcount b ob hb
      have h := holders_set ps i (some ⟨some a⟩) none b hi
      have hab : ¬ a = b := fun h' => hba h'.symm
      simp [hab] at h
      show ob.m_referenceCount = holders (ps.set i none) b
      omega
  · intro k w b hk hw
    by_cases hki : k = i
    · subst hki
      rw [List.getElem?_set] at hk
      simp at hk
    · rw [List.getElem?_set_ne (fun h => hki h.symm)] at hk
      have hlb := inv.hlive k w b hk hw
      by_cases hba : b = a
      · exfalso
        subst hba
        have hw' : w = ⟨some b⟩ := by cases w; simp_all
        subst hw'
        have h2 := two_le_holders ps i k b (fun h => hki h.symm) hi hk
        omega
      · simp [State.free, hba]
        exact hlb
  · intro b hb
    simp [State.free] at hb ⊢
    by_cases hba : b = a
    · simp [hba]
    · simp [hba]
      exact hfresh b hb
  · simp [State.free]
    rw [List.nodup_append]
    refine ⟨inv.hnodup, by simp, ?_⟩
    intro x hx hx2
    simp at hx2
    subst hx2
    exact hnf hx
  · intro b hb
    simp [State.free] at hb ⊢
    rcases hb with h | h
    · by_cases hba : b = a
      · simp [hba]
      · simp [hba]
        exact inv.hfreedDead b h
    · simp [h]
  · intro b hb
    simp [State.free] at hb ⊢
    rcases hb with h | h
    · exact hfreedLt b h
    · omega

/-- Destroying one of several wrappers of an object: the count drops by one,
the object survives. -/
theorem invariant_decr_drop (s : State) (ps : List (Option counted_ptr))
    (inv : Invariant ⟨s, ps⟩) (i a : Nat) (o : Obj)
    (hi : ps[i]? = some (some ⟨some a⟩)) (ha : s.heap a = some o)
    (h1 : o.m_referenceCount ≠ 1) :
    Invariant ⟨s.write a { o with m_referenceCount := o.m_referenceCount - 1 },
               ps.set i none⟩ := by
  have hfresh : ∀ b, s.next ≤ b → s.heap b = none := inv.hfresh
  have hhold : holders ps a = o.m_referenceCount := by
    have h : o.m_referenceCount = holders ps a := inv.hcount a o ha
    omega
  have hpos : 1 ≤ holders ps a := one_le_holders ps i a hi
  have han : a < s.next := lt_next_of_live s ps inv a o ha
  constructor
  · intro b ob hb
    by_cases hba : b = a
    · subst hba
      simp [State.write] at hb
      have h := holders_set ps i (some ⟨some b⟩) none b hi
      simp at h
      show ob.m_referenceCount = holders (ps.set i none) b
      simp [← hb]
      omega
    · simp [State.write, hba] at hb
      have h2 : ob.m_referenceCount = holders ps b := inv.hcount b ob hb
      have h := holders_set ps i (some ⟨some a⟩) none b hi
      have hab : ¬ a = b := fun h' => hba h'.symm
      simp [hab] at h
      show ob.m_referenceCount = holders (ps.set i none) b
      omega
  · intro k w b hk hw
    by_cases hki : k = i
    · subst hki
      rw [List.getElem?_set] at hk
      simp at hk
    · rw [List.getElem?_set_ne (fun h => hki h.symm)] at hk
      have hlb := inv.hlive k w b hk hw
      by_cases hba : b = a
      · subst hba
        simp [State.write]
      · simp [State.write, hba]
        exact hlb
  · intro b hb
    simp [State.write] at hb ⊢
    have hba : ¬ b = a := by omega
    simp [hba]
    exact hfresh b hb
  · exact inv.hnodup
  · intro b hb
    have h2 := inv.hfreedDead b hb
    have hba : ¬ b = a := fun h => by rw [h, ha] at h2; exact Option.noConfusion h2
    simp [State.write, hba]
    exact h2
  · exact inv.hfreedLt

/-- The release step of the destructor, `attach` and `operator=`, combined
with retiring the wrapper's slot. -/
theorem invariant_releaseHeld_drop (s : State) (ps : List (Option counted_ptr))
    (inv : Invariant ⟨s, ps⟩) (i : Nat) (w : counted_ptr)
    (hi : ps[i]? = some (some w)) :
    Invariant ⟨counted_ptr.releaseHeld s w, ps.set i none⟩ := by
  obtain ⟨p⟩ := w
  cases p with
  | none =>
    rw [releaseHeld_null]
    exact invariant_drop_null s ps inv i hi
  | some a =>
    have hlv := inv.hlive i ⟨some a⟩ a hi rfl
    obtain ⟨o, ho⟩ := Option.isSome_iff_exists.mp hlv
    by_cases h1 : o.m_referenceCount = 1
    · rw [releaseHeld_last s a o ho h1]
      exact invariant_free_drop s ps inv i a o hi ho h1
    · rw [releaseHeld_shared s a o ho h1]
      exact invariant_decr_drop s ps inv i a o hi ho h1

/-- The copy-on-write trigger inside `get`: the cloning wrapper moves from
the shared object (count decremented) to a fresh private clone (count 1). -/
theorem invariant_cow (s : State) (ps : List (Option counted_ptr))
    (inv : Invariant ⟨s, ps⟩) (i a : Nat) (o : Obj)
    (hi : ps[i]? = some (some ⟨some a⟩)) (ha : s.heap a = some o)
    (h2 : o.m_referenceCount > 1) :
    Invariant ⟨{ heap := fun b =>
                   if b = s.next then some { val := o.val, m_referenceCount := 1 }
                   else if b = a then
                     some { o with m_referenceCount := o.m_referenceCount - 1 }
                   else s.heap b,
                 next := s.next + 1, freed := s.freed },
               ps.set i (some ⟨some s.next⟩)⟩ := by
  have hfresh : ∀ b, s.next ≤ b → s.heap b = none := inv.hfresh
  have hfreedLt : ∀ b, b ∈ s.freed → b < s.next := inv.hfreedLt
  have hdead : s.heap s.next = none := hfresh s.next le_rfl
  have h0 : holders ps s.next = 0 := holders_eq_zero_of_dead ⟨s, ps⟩ inv s.next hdead
  have hhold : holders ps a = o.m_referenceCount := by
    have h : o.m_referenceCount = holders ps a := inv.hcount a o ha
    omega
  have han : a < s.next := lt_next_of_live s ps inv a o ha
  constructor
  · intro b ob hb
    show ob.m_referenceCount = holders (ps.set i (some ⟨some s.next⟩)) b
    by_cases hbn : b = s.next
    · rw [hbn] at hb ⊢
      simp at hb
      have h := holders_set ps i (some ⟨some a⟩) (some ⟨some s.next⟩) s.next hi
      have hab : ¬ a = s.next := by omega
      simp [hab] at h
      simp [← hb]
      omega
    · by_cases hba : b = a
      · rw [hba] at hb ⊢
        have hann : ¬ a = s.next := by omega
        simp [hann] at hb
        have h := holders_set ps i (some ⟨some a⟩) (some ⟨some s.next⟩) a hi
        have hna : ¬ s.next = a := by omega
        simp [hna] at h
        simp [← hb]
        omega
      · simp [hbn, hba] at hb
        have h2b : ob.m_referenceCount = holders ps b := inv.hcount b ob hb
        have h := holders_set ps i (some ⟨some a⟩) (some ⟨some s.next⟩) b hi
        have hab : ¬ a = b := fun h' => hba h'.symm
        have hnb : ¬ s.next = b := fun h' => hbn h'.symm
        simp [hab, hnb] at h
        omega
  · intro k w b hk hw
    by_cases hki : k = i
    · subst hki
      rw [List.getElem?_set] at hk
      simp at hk
      rcases hk with ⟨-, hk⟩
      rw [← hk] at hw
      simp at hw
      subst hw
      simp
    · rw [List.getElem?_set_ne (fun h => hki h.symm)] at hk
      have hlb := inv.hlive k w b hk hw
      by_cases hbn : b = s.next
      · subst hbn; simp
      · by_cases hba : b = a
        · subst hba; simp [hbn]
        · simp [hbn, hba]
          exact hlb
  · intro b hb
    simp at hb ⊢
    have hbn : ¬ b = s.next := by omega
    have hba : ¬ b = a := by omega
    simp [hbn, hba]
    exact hfresh b (by omega)
  · exact inv.hnodup
  · intro b hb
    have hd := inv.hfreedDead b hb
    have hlt := hfreedLt b hb
    have hbn : ¬ b = s.next := by omega
    have hba : ¬ b = a := fun h => by rw [h, ha] at hd; exact Option.noConfusion hd
    simp [hbn, hba]
    exact hd
  · intro b hb
    have hlt := hfreedLt b hb
    simp
    omega

/-! ## Shapes of the remaining operations -/

theorem ctorNew_shape (s : State) (v : Nat) :
    counted_ptr.ctorNew s v
      = ({ heap := fun b => if b = s.next
             then some { val := v, m_referenceCount := 1 } else s.heap b,
           next := s.next + 1, freed := s.freed }, ⟨some s.next⟩) := by
  simp [counted_ptr.ctorNew, State.alloc, counted_ptr.ctorRaw, State.write]
  funext b
  by_cases hb : b = s.next <;> simp [hb]

theorem copyCtor_null (s : State) (rhs : counted_ptr) (h : rhs.m_p = none) :
    counted_ptr.copyCtor s rhs = (s, ⟨none⟩) := by
  obtain ⟨p⟩ := rhs
  simp at h
  subst h
  rfl

theorem copyCtor_live (s : State) (rhs : counted_ptr) (a : Nat) (o : Obj)
    (h : rhs.m_p = some a) (ha : s.heap a = some o) :
    counted_ptr.copyCtor s rhs
      = (s.write a { o with m_referenceCount := o.m_referenceCount + 1 },
         ⟨some a⟩) := by
  obtain ⟨p⟩ := rhs
  simp at h
  subst h
  simp [counted_ptr.copyCtor, ha]

theorem assign_self_shape (s : State) (lhs rhs : counted_ptr) :
    counted_ptr.assign s lhs rhs true = (s, lhs) := rfl

theorem assign_alias_shape (s : State) (lhs rhs : counted_ptr)
    (h : lhs.m_p = rhs.m_p) :
    counted_ptr.assign s lhs rhs false = (s, lhs) := by
  simp [counted_ptr.assign, h]

theorem assign_fromNull_shape (s : State) (lhs rhs : counted_ptr)
    (h : lhs.m_p ≠ rhs.m_p) (h2 : rhs.m_p = none) :
    counted_ptr.assign s lhs rhs false
      = (counted_ptr.releaseHeld s lhs, ⟨none⟩) := by
  rw [h2] at h
  simp [counted_ptr.assign, h2, h]

theorem assign_share_shape (s : State) (lhs rhs : counted_ptr) (a : Nat) (o : Obj)
    (h : lhs.m_p ≠ rhs.m_p) (h2 : rhs.m_p = some a)
    (ho : (counted_ptr.releaseHeld s lhs).heap a = some o) :
    counted_ptr.assign s lhs rhs false
      = ((counted_ptr.releaseHeld s lhs).write a
           { o with m_referenceCount := o.m_referenceCount + 1 }, ⟨some a⟩) := by
  rw [h2] at h
  simp [counted_ptr.assign, h2, h, ho]

theorem get_keep_shape (s : State) (a : Nat) (o : Obj) (ha : s.heap a = some o)
    (h : ¬ o.m_referenceCount > 1) :
    counted_ptr.get s ⟨some a⟩ = (s, ⟨some a⟩, some a) := by
  simp [counted_ptr.get, ha, h]

theorem get_cow_shape (s : State) (a : Nat) (o : Obj) (ha : s.heap a = some o)
    (h : o.m_referenceCount > 1) :
    counted_ptr.get s ⟨some a⟩
      = ({ heap := fun b =>
             if b = s.next then some { val := o.val, m_referenceCount := 1 }
             else if b = a then
               some { o with m_referenceCount := o.m_referenceCount - 1 }
             else s.heap b,
           next := s.next + 1, freed := s.freed },
         ⟨some s.next⟩, some s.next) := by
  simp [counted_ptr.get, ha, h, State.alloc, State.write]
  funext b
  by_cases hbn : b = s.next
  · simp [hbn]
  · by_cases hba : b = a <;> simp [hbn, hba]

theorem releaseHeld_heap_other (s : State) (w : counted_ptr) (b : Nat)
    (h : w.m_p ≠ some b) :
    (counted_ptr.releaseHeld s w).heap b = s.heap b := by
  obtain ⟨p⟩ := w
  cases p with
  | none => rfl
  | some a =>
    have hba : ¬ b = a := fun he => h (by simp [he])
    unfold counted_ptr.releaseHeld
    simp only []
    cases hsa : s.heap a with
    | none => rfl
    | some o =>
      by_cases h1 : o.m_referenceCount = 1 <;>
        simp [h1, State.free, State.write, hba]

theorem releaseHeld_next (s : State) (w : counted_ptr) :
    (counted_ptr.releaseHeld s w).next = s.next := by
  obtain ⟨p⟩ := w
  cases p with
  | none => rfl
  | some a =>
    unfold counted_ptr.releaseHeld
    simp only []
    cases hsa : s.heap a with
    | none => rfl
    | some o =>
      by_cases h1 : o.m_referenceCount = 1 <;> simp [h1, State.free, State.write]

theorem attach_clone_shape (s : State) (w : counted_ptr) (r : Nat) (o : Obj)
    (hr : (counted_ptr.releaseHeld s w).heap r = some o)
    (h0 : o.m_referenceCount = 0) :
    counted_ptr.attach s w r
      = ({ heap := fun b =>
             if b = (counted_ptr.releaseHeld s w).next
             then some { val := o.val, m_referenceCount := 1 }
             else (counted_ptr.releaseHeld s w).heap b,
           next := (counted_ptr.releaseHeld s w).next + 1,
           freed := (counted_ptr.releaseHeld s w).freed },
         ⟨some (counted_ptr.releaseHeld s w).next⟩) := by
  simp [counted_ptr.attach, hr, h0, State.alloc, State.write]
  funext b
  by_cases hb : b = (counted_ptr.releaseHeld s w).next <;> simp [hb]

theorem attach_share_shape (s : State) (w : counted_ptr) (r : Nat) (o : Obj)
    (hr : (counted_ptr.releaseHeld s w).heap r = some o)
    (h0 : o.m_referenceCount ≠ 0) :
    counted_ptr.attach s w r
      = ((counted_ptr.releaseHeld s w).write r
           { o with m_referenceCount := o.m_referenceCount + 1 }, ⟨some r⟩) := by
  simp [counted_ptr.attach, hr, h0]

/-- Every public operation preserves the ownership invariant. -/
theorem invariant_step (c c' : Config) (inv : Invariant c) (h : Step c c') :
    Invariant c' := by
  obtain ⟨s, ps⟩ := c
  cases h with
  | ctorNew v =>
    show Invariant ⟨(counted_ptr.ctorNew s v).1,
                    ps ++ [some (counted_ptr.ctorNew s v).2]⟩
    rw [ctorNew_shape]
    exact invariant_clone s ps _ inv v (addsHolder_append ps s.next)
  | copyCtor i w hi =>
    show Invariant ⟨(counted_ptr.copyCtor s w).1,
                    ps ++ [some (counted_ptr.copyCtor s w).2]⟩
    obtain ⟨p⟩ := w
    cases p with
    | none =>
      rw [copyCtor_null s ⟨none⟩ rfl]
      exact invariant_addNull s ps _ inv (addsNull_append ps)
    | some a =>
      have hlv := inv.hlive i ⟨some a⟩ a hi rfl
      obtain ⟨o, ho⟩ := Option.isSome_iff_exists.mp hlv
      rw [copyCtor_live s ⟨some a⟩ a o rfl ho]
      exact invariant_adopt s ps _ inv a o ho (addsHolder_append ps a)
  | dtor i w hi =>
    exact invariant_releaseHeld_drop s ps inv i w hi
  | assign i j wi wj hi hj =>
    show Invariant ⟨(counted_ptr.assign s wi wj (decide (i = j))).1,
                    ps.set i (some (counted_ptr.assign s wi wj (decide (i = j))).2)⟩
    have hlen : i < ps.length := by
      rcases List.getElem?_eq_some.mp hi with ⟨hl, -⟩
      exact hl
    by_cases hij : i = j
    · rw [decide_eq_true hij, assign_self_shape]
      show Invariant ⟨s, ps.set i (some wi)⟩
      rw [set_getElem_self ps i (some wi) hi]
      exact inv
    · rw [decide_eq_false hij]
      by_cases halias : wi.m_p = wj.m_p
      · rw [assign_alias_shape s wi wj halias]
        show Invariant ⟨s, ps.set i (some wi)⟩
        rw [set_getElem_self ps i (some wi) hi]
        exact inv
      · have hmid := invariant_releaseHeld_drop s ps inv i wi hi
        have hslot : (ps.set i none)[i]? = some none := by
          rw [List.getElem?_set]
          simp [hlen]
        cases hwj : wj.m_p with
        | none =>
          rw [assign_fromNull_shape s wi wj halias hwj]
          have h2 := invariant_addNull _ _ _ hmid (addsNull_set (ps.set i none) i hslot)
          rw [List.set_set] at h2
          exact h2
        | some a =>
          have hlv := inv.hlive j wj a hj hwj
          obtain ⟨o, ho⟩ := Option.isSome_iff_exists.mp hlv
          have ho1 : (counted_ptr.releaseHeld s wi).heap a = s.heap a :=
            releaseHeld_heap_other s wi a (by rw [hwj] at halias; exact halias)
          rw [ho] at ho1
          rw [assign_share_shape s wi wj a o halias hwj ho1]
          have h2 := invariant_adopt _ _ _ hmid a o ho1
            (addsHolder_set (ps.set i none) i a hslot)
          rw [List.set_set] at h2
          exact h2
  | get i w hi =>
    show Invariant ⟨(counted_ptr.get s w).1,
                    ps.set i (some (counted_ptr.get s w).2.1)⟩
    obtain ⟨p⟩ := w
    cases p with
    | none =>
      show Invariant ⟨s, ps.set i (some ⟨none⟩)⟩
      rw [set_getElem_self ps i (some ⟨none⟩) hi]
      exact inv
    | some a =>
      have hlv := inv.hlive i ⟨some a⟩ a hi rfl
      obtain ⟨o, ho⟩ := Option.isSome_iff_exists.mp hlv
      by_cases hcnt : o.m_referenceCount > 1
      · rw [get_cow_shape s a o ho hcnt]
        exact invariant_cow s ps inv i a o hi ho hcnt
      · rw [get_keep_shape s a o ho hcnt]
        show Invariant ⟨s, ps.set i (some ⟨some a⟩)⟩
        rw [set_getElem_self ps i (some ⟨some a⟩) hi]
        exact inv
  | allocObj v =>
    exact invariant_alloc0 s ps inv v
  | attach i w r o hi hr =>
    show Invariant ⟨(counted_ptr.attach s w r).1,
                    ps.set i (some (counted_ptr.attach s w r).2)⟩
    have hlen : i < ps.length := by
      rcases List.getElem?_eq_some.mp hi with ⟨hl, -⟩
      exact hl
    have hmid := invariant_releaseHeld_drop s ps inv i w hi
    have hslot : (ps.set i none)[i]? = some none := by
      rw [List.getElem?_set]
      simp [hlen]
    by_cases h0 : o.m_referenceCount = 0
    · rw [attach_clone_shape s w r o hr h0]
      have h2 := invariant_clone (counted_ptr.releaseHeld s w) (ps.set i none) _
        hmid o.val (addsHolder_set (ps.set i none) i
          (counted_ptr.releaseHeld s w).next hslot)
      rw [List.set_set] at h2
      exact h2
    · rw [attach_share_shape s w r o hr h0]
      have h2 := invariant_adopt (counted_ptr.releaseHeld s w) (ps.set i none) _
        hmid r o hr (addsHolder_set (ps.set i none) i r hslot)
      rw [List.set_set] at h2
      exact h2

/-! ## Which operations `delete`, and when -/

theorem releaseHeld_freed (s : State) (w : counted_ptr) (b : Nat)
    (hb : b ∈ (counted_ptr.releaseHeld s w).freed) (hnb : b ∉ s.freed) :
    ∃ o : Obj, s.heap b = some o ∧ o.m_referenceCount = 1 := by
  obtain ⟨p⟩ := w
  cases p with
  | none => exact absurd hb hnb
  | some a =>
    cases hsa : s.heap a with
    | none =>
      unfold counted_ptr.releaseHeld at hb
      simp [hsa] at hb
      exact absurd hb hnb
    | some o =>
      by_cases h1 : o.m_referenceCount = 1
      · rw [releaseHeld_last s a o hsa h1] at hb
        simp [State.free] at hb
        rcases hb with h | h
        · exact absurd h hnb
        · rw [h]
          exact ⟨o, hsa, h1⟩
      · rw [releaseHeld_shared s a o hsa h1] at hb
        simp [State.write] at hb
        exact absurd hb hnb

theorem copyCtor_freed (s : State) (w : counted_ptr) :
    (counted_ptr.copyCtor s w).1.freed = s.freed := by
  obtain ⟨p⟩ := w
  cases p with
  | none => rfl
  | some a =>
    cases hsa : s.heap a with
    | none => simp [counted_ptr.copyCtor, hsa]
    | some o => simp [counted_ptr.copyCtor, hsa, State.write]

theorem get_freed (s : State) (w : counted_ptr) :
    (counted_ptr.get s w).1.freed = s.freed := by
  obtain ⟨p⟩ := w
  cases p with
  | none => rfl
  | some a =>
    cases hsa : s.heap a with
    | none => simp [counted_ptr.get, hsa]
    | some o =>
      by_cases h2 : o.m_referenceCount > 1
      · rw [get_cow_shape s a o hsa h2]
      · rw [get_keep_shape s a o hsa h2]

theorem assign_freed_sub (s : State) (lhs rhs : counted_ptr) (self : Bool)
    (b : Nat) (hb : b ∈ (counted_ptr.assign s lhs rhs self).1.freed) :
    b ∈ (counted_ptr.releaseHeld s lhs).freed ∨ b ∈ s.freed := by
  cases self with
  | true => exact Or.inr hb
  | false =>
    by_cases halias : lhs.m_p = rhs.m_p
    · rw [assign_alias_shape s lhs rhs halias] at hb
      exact Or.inr hb
    · cases hp : rhs.m_p with
      | none =>
        rw [assign_fromNull_shape s lhs rhs halias hp] at hb
        exact Or.inl hb
      | some a =>
        cases ha : (counted_ptr.releaseHeld s lhs).heap a with
        | none =>
          left
          rw [hp] at halias
          unfold counted_ptr.assign at hb
          simp [halias, hp, ha] at hb
          exact hb
        | some o =>
          rw [assign_share_shape s lhs rhs a o halias hp ha] at hb
          exact Or.inl hb

theorem attach_freed (s : State) (w : counted_ptr) (r : Nat) :
    (counted_ptr.attach s w r).1.freed
      = (counted_ptr.releaseHeld s w).freed := by
  cases ha : (counted_ptr.releaseHeld s w).heap r with
  | none => simp [counted_ptr.attach, ha]
  | some o =>
    by_cases h0 : o.m_referenceCount = 0
    · rw [attach_clone_shape s w r o ha h0]
    · rw [attach_share_shape s w r o ha h0]
      rfl

/-- A step `delete`s only objects whose count stands at 1 (the 1 → 0
transition). -/
theorem step_free_last (c c' : Config) (h : Step c c') (b : Nat)
    (hb : b ∈ c'.st.freed) (hnb : b ∉ c.st.freed) :
    ∃ o : Obj, c.st.heap b = some o ∧ o.m_referenceCount = 1 := by
  cases h with
  | ctorNew v =>
    have hb' : b ∈ (counted_ptr.ctorNew c.st v).1.freed := hb
    rw [ctorNew_shape] at hb'
    exact absurd hb' hnb
  | copyCtor i w hi =>
    have hb' : b ∈ (counted_ptr.copyCtor c.st w).1.freed := hb
    rw [copyCtor_freed] at hb'
    exact absurd hb' hnb
  | dtor i w hi =>
    exact releaseHeld_freed c.st w b hb hnb
  | assign i j wi wj hi hj =>
    have hb' : b ∈ (counted_ptr.assign c.st wi wj (decide (i = j))).1.freed := hb
    rcases assign_freed_sub c.st wi wj (decide (i = j)) b hb' with h | h
    · exact releaseHeld_freed c.st wi b h hnb
    · exact absurd h hnb
  | get i w hi =>
    have hb' : b ∈ (counted_ptr.get c.st w).1.freed := hb
    rw [get_freed] at hb'
    exact absurd hb' hnb
  | allocObj v =>
    exact absurd hb hnb
  | attach i w r o hi hr =>
    have hb' : b ∈ (counted_ptr.attach c.st w r).1.freed := hb
    rw [attach_freed] at hb'
    exact releaseHeld_freed c.st w b hb' hnb

/-- The empty configuration satisfies the invariant. -/
theorem invariant_init : Invariant ⟨initState, []⟩ := by
  constructor
  · intro a o ha
    exact absurd ha (by simp [initState])
  · intro k w a hk hw
    simp at hk
  · intro a ha
    rfl
  · exact List.nodup_nil
  · intro a ha
    exact absurd ha (by simp [initState])
  · intro a ha
    exact absurd ha (by simp [initState])

/-- Every reachable configuration satisfies the invariant. -/
theorem invariant_reachable (c : Config) (h : Reachable c) : Invariant c := by
  induction h with
  | init => exact invariant_init
  | step hr hs ih => exact invariant_step _ _ ih hs

/-- Releasing never allocates: addresses at or past the cursor stay unused. -/
theorem releaseHeld_fresh (s : State) (w : counted_ptr)
    (hfresh : ∀ b, s.next ≤ b → s.heap b = none) :
    ∀ b, (counted_ptr.releaseHeld s w).next ≤ b →
      (counted_ptr.releaseHeld s w).heap b = none := by
  intro b hb
  rw [releaseHeld_next] at hb
  obtain ⟨p⟩ := w
  cases p with
  | none => exact hfresh b hb
  | some a =>
    cases hsa : s.heap a with
    | none =>
      unfold counted_ptr.releaseHeld
      simp [hsa]
      exact hfresh b hb
    | some o =>
      have han : a < s.next := by
        by_contra hc
        have h2 := hfresh a (Nat.le_of_not_lt hc)
        rw [hsa] at h2
        exact Option.noConfusion h2
      have hba : ¬ b = a := by omega
      by_cases h1 : o.m_referenceCount = 1
      · rw [releaseHeld_last s a o hsa h1]
        simp [State.free, hba]
        exact hfresh b hb
      · rw [releaseHeld_shared s a o hsa h1]
        simp [State.write, hba]
        exact hfresh b hb

/-! ## Claim theorems -/

/-- The spec's two-wrapper scenario: `a` constructed from `new T(v)` on the
empty store, `b` copy-constructed from `a`, then mutable `a.get()`. -/
def cowA (v : Nat) : State × counted_ptr :=
  counted_ptr.ctorNew initState v

def cowB (v : Nat) : State × counted_ptr :=
  counted_ptr.copyCtor (cowA v).1 (cowA v).2

def cowGet (v : Nat) : State × counted_ptr × Option Nat :=
  counted_ptr.get (cowB v).1 (cowA v).2

/-- C1: mutable `get()` on a wrapper holding live object `o` at `a`: when the
embedded count exceeds 1, it allocates a clone of the object at the fresh
address, decrements the original's count by one, re-points the wrapper at the
clone with its count set to 1, and returns the clone (a genuinely different
address, and nothing is deleted — the `freed` log is unchanged); when the
count is 1 it returns the held pointer with no state change.  In particular,
for `a` built from a raw pointer (count 1) and `b` copy-constructed from it
(count 2), `a.get()` leaves `a` on a fresh clone of count 1 (address 1) and
`b` on the original of count 1 (address 0). -/
theorem C1_get_copy_on_write (s : State) (w : counted_ptr) (a : Nat) (o : Obj)
    (hw : w.m_p = some a) (ha : s.heap a = some o)
    (hfresh : ∀ b, s.next ≤ b → s.heap b = none) :
    (o.m_referenceCount > 1 →
      counted_ptr.get s w
        = ({ heap := fun b =>
               if b = s.next then some { val := o.val, m_referenceCount := 1 }
               else if b = a then
                 some { o with m_referenceCount := o.m_referenceCount - 1 }
               else s.heap b,
             next := s.next + 1, freed := s.freed },
           ⟨some s.next⟩, some s.next)
      ∧ a ≠ s.next)
    ∧ (o.m_referenceCount = 1 → counted_ptr.get s w = (s, w, some a))
    ∧ (∀ v : Nat,
        (cowGet v).2.1.m_p = some 1
        ∧ (cowGet v).2.2 = some 1
        ∧ (cowB v).2.m_p = some 0
        ∧ (cowGet v).1.heap 1 = some { val := v, m_referenceCount := 1 }
        ∧ (cowGet v).1.heap 0 = some { val := v, m_referenceCount := 1 }
        ∧ (cowGet v).1.freed = []) := by
  obtain ⟨p⟩ := w
  simp only [counted_ptr.m_p] at hw
  subst hw
  have han : a < s.next := by
    by_contra hc
    have h2 := hfresh a (Nat.le_of_not_lt hc)
    rw [ha] at h2
    exact Option.noConfusion h2
  refine ⟨?_, ?_, ?_⟩
  · intro h2
    exact ⟨get_cow_shape s a o ha h2, by omega⟩
  · intro h1
    exact get_keep_shape s a o ha (by omega)
  · intro v
    exact ⟨rfl, rfl, rfl, rfl, rfl, rfl⟩

/-- Witness store: one object at address 0 with count 2. -/
def sWa : State where
  heap := fun b => if b = 0 then some { val := 7, m_referenceCount := 2 } else none
  next := 1
  freed := []

/-- Witness store: one free-standing object at address 0 with count 0. -/
def sWc : State where
  heap := fun b => if b = 0 then some { val := 9, m_referenceCount := 0 } else none
  next := 1
  freed := []

theorem C1_witness :
    ((2 : Nat) > 1 →
      counted_ptr.get sWa ⟨some 0⟩
        = ({ heap := fun b =>
               if b = 1 then some { val := 7, m_referenceCount := 1 }
               else if b = 0 then some { val := 7, m_referenceCount := 1 }
               else sWa.heap b,
             next := 2, freed := [] }, ⟨some 1⟩, some 1)
      ∧ (0 : Nat) ≠ 1)
    ∧ ((2 : Nat) = 1 → counted_ptr.get sWa ⟨some 0⟩ = (sWa, ⟨some 0⟩, some 0))
    ∧ (∀ v : Nat,
        (cowGet v).2.1.m_p = some 1
        ∧ (cowGet v).2.2 = some 1
        ∧ (cowB v).2.m_p = some 0
        ∧ (cowGet v).1.heap 1 = some { val := v, m_referenceCount := 1 }
        ∧ (cowGet v).1.heap 0 = some { val := v, m_referenceCount := 1 }
        ∧ (cowGet v).1.freed = []) :=
  C1_get_copy_on_write sWa ⟨some 0⟩ 0 { val := 7, m_referenceCount := 2 } rfl rfl
    (fun b hb => by
      have hb1 : 1 ≤ b := hb
      have hb0 : ¬ b = 0 := by omega
      simp [sWa, hb0])

/-- The configuration used to witness the reachability claims: one wrapper
built from `new T(5)`. -/
def cfgW : Config :=
  ⟨(counted_ptr.ctorNew initState 5).1, [some (counted_ptr.ctorNew initState 5).2]⟩

/-- C2: in every configuration reachable by the public `counted_ptr`
operations, each live object's embedded count equals the number of live
wrappers holding its address, the `delete` log never repeats an address
(each object is deleted at most once, and deleted objects are gone from the
heap), and any operation that deletes an address deletes an object whose
count — and holder count — was exactly 1, i.e. deletion happens exactly at
the 1 → 0 transition. -/
theorem C2_refcount_invariant (c : Config) (h : Reachable c) :
    (∀ a o, c.st.heap a = some o → o.m_referenceCount = holders c.ptrs a)
    ∧ c.st.freed.Nodup
    ∧ (∀ a, a ∈ c.st.freed → c.st.heap a = none)
    ∧ (∀ c' : Config, Step c c' → ∀ a, a ∈ c'.st.freed → a ∉ c.st.freed →
        ∃ o : Obj, c.st.heap a = some o ∧ o.m_referenceCount = 1 ∧
          holders c.ptrs a = 1) := by
  have inv := invariant_reachable c h
  refine ⟨inv.hcount, inv.hnodup, inv.hfreedDead, ?_⟩
  intro c' hs a ha hna
  obtain ⟨o, ho, h1⟩ := step_free_last c c' hs a ha hna
  have h2 := inv.hcount a o ho
  exact ⟨o, ho, h1, by omega⟩

theorem C2_witness :
    (∀ a o, cfgW.st.heap a = some o → o.m_referenceCount = holders cfgW.ptrs a)
    ∧ cfgW.st.freed.Nodup
    ∧ (∀ a, a ∈ cfgW.st.freed → cfgW.st.heap a = none)
    ∧ (∀ c' : Config, Step cfgW c' → ∀ a, a ∈ c'.st.freed → a ∉ cfgW.st.freed →
        ∃ o : Obj, cfgW.st.heap a = some o ∧ o.m_referenceCount = 1 ∧
          holders cfgW.ptrs a = 1) :=
  C2_refcount_invariant cfgW
    (Reachable.step Reachable.init (Step.ctorNew ⟨initState, []⟩ 5))

/-- C3: `attach(r)` first releases the wrapper's held object (that is the
`releaseHeld` prefix of the definition: decrement, delete on reaching 0, and
a no-op for a null holder); then, with `r` still live afterwards, if `r`'s
embedded count is 0 the wrapper adopts a fresh clone of `r` with count 1 —
`r` itself keeps count 0 and its address is not the one adopted — and
otherwise the wrapper adopts `r`'s address and increments its count by one.
Construction from a value is literally `attach` run on a wrapper holding
null, whose release step does nothing. -/
theorem C3_attach (s : State) (w : counted_ptr) (r : Nat) (o : Obj)
    (hr : (counted_ptr.releaseHeld s w).heap r = some o)
    (hfresh : ∀ b, s.next ≤ b → s.heap b = none) :
    (∀ a oa, w.m_p = some a → s.heap a = some oa →
      (oa.m_referenceCount = 1 → counted_ptr.releaseHeld s w = s.free a)
      ∧ (oa.m_referenceCount ≠ 1 → counted_ptr.releaseHeld s w
          = s.write a { oa with m_referenceCount := oa.m_referenceCount - 1 }))
    ∧ (w.m_p = none → counted_ptr.releaseHeld s w = s)
    ∧ (o.m_referenceCount = 0 →
        counted_ptr.attach s w r
          = ({ heap := fun b =>
                 if b = (counted_ptr.releaseHeld s w).next
                 then some { val := o.val, m_referenceCount := 1 }
                 else (counted_ptr.releaseHeld s w).heap b,
               next := (counted_ptr.releaseHeld s w).next + 1,
               freed := (counted_ptr.releaseHeld s w).freed },
             ⟨some (counted_ptr.releaseHeld s w).next⟩)
        ∧ (counted_ptr.releaseHeld s w).next ≠ r
        ∧ (counted_ptr.attach s w r).1.heap r = some o)
    ∧ (o.m_referenceCount ≠ 0 →
        counted_ptr.attach s w r
          = ((counted_ptr.releaseHeld s w).write r
               { o with m_referenceCount := o.m_referenceCount + 1 },
             ⟨some r⟩))
    ∧ counted_ptr.ctorVal s r = counted_ptr.attach s ⟨none⟩ r := by
  have hrn : r < (counted_ptr.releaseHeld s w).next := by
    by_contra hc
    have hf := releaseHeld_fresh s w hfresh r (Nat.le_of_not_lt hc)
    rw [hr] at hf
    exact Option.noConfusion hf
  refine ⟨?_, ?_, ?_, ?_, rfl⟩
  · intro a oa hwa ha
    obtain ⟨p⟩ := w
    simp only [counted_ptr.m_p] at hwa
    subst hwa
    exact ⟨fun h1 => releaseHeld_last s a oa ha h1,
           fun h1 => releaseHeld_shared s a oa ha h1⟩
  · intro hwn
    obtain ⟨p⟩ := w
    simp only [counted_ptr.m_p] at hwn
    subst hwn
    rfl
  · intro h0
    refine ⟨attach_clone_shape s w r o hr h0, by omega, ?_⟩
    rw [attach_clone_shape s w r o hr h0]
    have hne : ¬ r = (counted_ptr.releaseHeld s w).next := by omega
    simp [hne]
    exact hr
  · intro h0
    exact attach_share_shape s w r o hr h0

theorem C3_witness :
    (∀ a oa, (⟨none⟩ : counted_ptr).m_p = some a → sWc.heap a = some oa →
      (oa.m_referenceCount = 1 →
         counted_ptr.releaseHeld sWc ⟨none⟩ = sWc.free a)
      ∧ (oa.m_referenceCount ≠ 1 → counted_ptr.releaseHeld sWc ⟨none⟩
          = sWc.write a { oa with m_referenceCount := oa.m_referenceCount - 1 }))
    ∧ ((⟨none⟩ : counted_ptr).m_p = none →
        counted_ptr.releaseHeld sWc ⟨none⟩ = sWc)
    ∧ ((0 : Nat) = 0 →
        counted_ptr.attach sWc ⟨none⟩ 0
          = ({ heap := fun b =>
                 if b = (counted_ptr.releaseHeld sWc ⟨none⟩).next
                 then some { val := 9, m_referenceCount := 1 }
                 else (counted_ptr.releaseHeld sWc ⟨none⟩).heap b,
               next := (counted_ptr.releaseHeld sWc ⟨none⟩).next + 1,
               freed := (counted_ptr.releaseHeld sWc ⟨none⟩).freed },
             ⟨some (counted_ptr.releaseHeld sWc ⟨none⟩).next⟩)
        ∧ (counted_ptr.releaseHeld sWc ⟨none⟩).next ≠ 0
        ∧ (counted_ptr.attach sWc ⟨none⟩ 0).1.heap 0
            = some { val := 9, m_referenceCount := 0 })
    ∧ ((0 : Nat) ≠ 0 →
        counted_ptr.attach sWc ⟨none⟩ 0
          = ((counted_ptr.releaseHeld sWc ⟨none⟩).write 0
               { val := 9, m_referenceCount := 0 + 1 },
             ⟨some 0⟩))
    ∧ counted_ptr.ctorVal sWc 0 = counted_ptr.attach sWc ⟨none⟩ 0 :=
  C3_attach sWc ⟨none⟩ 0 { val := 9, m_referenceCount := 0 } rfl
    (fun b hb => by
      have hb1 : 1 ≤ b := hb
      have hb0 : ¬ b = 0 := by omega
      simp [sWc, hb0])

/-- C5: `member_ptr::release()` returns the held raw pointer and nulls the
wrapper's storage, so destroying the wrapper afterwards deletes a null
pointer and frees nothing; `simple_ptr`'s destructor nulls its storage after
deleting, so a second destructor run on the surviving storage frees nothing
more — a held address ends up in the `delete` log exactly once. -/
theorem C5_release_no_double_free (s : State) (w : member_ptr) (p : simple_ptr) :
    (member_ptr.release w).1 = w.m_p
    ∧ (member_ptr.release w).2 = ⟨none⟩
    ∧ member_ptr.dtor s (member_ptr.release w).2 = s
    ∧ (simple_ptr.dtor s p).2 = ⟨none⟩
    ∧ (simple_ptr.dtor (simple_ptr.dtor s p).1 (simple_ptr.dtor s p).2).1
        = (simple_ptr.dtor s p).1
    ∧ (∀ a, p.m_p = some a → a ∉ s.freed →
        (simple_ptr.dtor (simple_ptr.dtor s p).1
           (simple_ptr.dtor s p).2).1.freed.count a = 1) := by
  refine ⟨rfl, rfl, rfl, ?_, ?_, ?_⟩
  · obtain ⟨q⟩ := p
    cases q <;> rfl
  · obtain ⟨q⟩ := p
    cases q <;> rfl
  · intro a hpa hna
    obtain ⟨q⟩ := p
    simp only [simple_ptr.m_p] at hpa
    subst hpa
    have h0 : s.freed.count a = 0 := List.count_eq_zero_of_not_mem hna
    show (s.free a).freed.count a = 1
    simp [State.free, List.count_append, h0]

theorem C5_witness :
    (member_ptr.release ⟨some 3⟩).1 = (⟨some 3⟩ : member_ptr).m_p
    ∧ (member_ptr.release ⟨some 3⟩).2 = ⟨none⟩
    ∧ member_ptr.dtor initState (member_ptr.release ⟨some 3⟩).2 = initState
    ∧ (simple_ptr.dtor initState ⟨some 4⟩).2 = ⟨none⟩
    ∧ (simple_ptr.dtor (simple_ptr.dtor initState ⟨some 4⟩).1
         (simple_ptr.dtor initState ⟨some 4⟩).2).1
        = (simple_ptr.dtor initState ⟨some 4⟩).1
    ∧ (∀ a, (⟨some 4⟩ : simple_ptr).m_p = some a → a ∉ initState.freed →
        (simple_ptr.dtor (simple_ptr.dtor initState ⟨some 4⟩).1
           (simple_ptr.dtor initState ⟨some 4⟩).2).1.freed.count a = 1) :=
  C5_release_no_double_free initState ⟨some 3⟩ ⟨some 4⟩

/-- C9: indexed access on `vector_member_ptrs` (the mutable and const
overloads have the same body): an index at or past `size()` fails the
`CRYPTOPP_ASSERT` and traps — no slot reference is produced — while an index
below `size()` yields the slot at that index; the operation only reads the
slot array, so it is a pure function of the container and changes no slot's
ownership. -/
theorem C9_index_assert (v : vector_member_ptrs) (i : Nat) :
    (v.size ≤ i → vector_member_ptrs.index v i = Except.error ())
    ∧ (i < v.size → vector_member_ptrs.index v i
        = Except.ok (v.slots.getD i none)) := by
  constructor
  · intro h
    unfold vector_member_ptrs.index cryptoppAssert
    rw [if_neg (by omega)]
  · intro h
    unfold vector_member_ptrs.index cryptoppAssert
    rw [if_pos h]

theorem C9_witness :
    ((vector_member_ptrs.mk [some 3, none]).size ≤ 2 →
      vector_member_ptrs.index ⟨[some 3, none]⟩ 2 = Except.error ())
    ∧ (2 < (vector_member_ptrs.mk [some 3, none]).size →
      vector_member_ptrs.index ⟨[some 3, none]⟩ 2
        = Except.ok ((vector_member_ptrs.mk [some 3, none]).slots.getD 2 none)) :=
  C9_index_assert ⟨[some 3, none]⟩ 2

/-- C10: assigning between two distinct wrapper instances that already hold
the same address is a complete no-op: the `m_p != rhs.m_p` guard fails, so
the store — hence the object's count and the `delete` log — and the left
wrapper come back untouched; no transient decrement can free the shared
object. -/
theorem C10_aliased_assign_noop (s : State) (lhs rhs : counted_ptr) (a : Nat)
    (hl : lhs.m_p = some a) (hr : rhs.m_p = some a) :
    counted_ptr.assign s lhs rhs false = (s, lhs)
    ∧ (counted_ptr.assign s lhs rhs false).1.freed = s.freed
    ∧ (counted_ptr.assign s lhs rhs false).1.heap a = s.heap a := by
  have h : lhs.m_p = rhs.m_p := by rw [hl, hr]
  have hsh := assign_alias_shape s lhs rhs h
  exact ⟨hsh, by rw [hsh], by rw [hsh]⟩

theorem C10_witness :
    counted_ptr.assign sWa ⟨some 0⟩ ⟨some 0⟩ false = (sWa, ⟨some 0⟩)
    ∧ (counted_ptr.assign sWa ⟨some 0⟩ ⟨some 0⟩ false).1.freed = sWa.freed
    ∧ (counted_ptr.assign sWa ⟨some 0⟩ ⟨some 0⟩ false).1.heap 0 = sWa.heap 0 :=
  C10_aliased_assign_noop sWa ⟨some 0⟩ ⟨some 0⟩ 0 rfl rfl

/-- Scenario for the deep-copy claim: `a` constructed from the value `o`. -/
def vpA (s : State) (o : Obj) : State × value_ptr :=
  value_ptr.ctorVal s o

/-- Continuation of the scenario: `b` copy-constructed from `a`. -/
def vpB (s : State) (o : Obj) : State × value_ptr :=
  value_ptr.copyCtor (vpA s o).1 (vpA s o).2

/-- C6: `value_ptr` deep copy.  Constructing `a` from a value and
copy-constructing `b` from `a` yields wrappers at two distinct non-null
addresses whose pointees are equal by value (so `a == b` holds), and
mutating the object behind one wrapper leaves the other wrapper's object
unchanged (in either direction); copy-constructing from a null holder yields
a null holder; and `operator==` returns true exactly when both sides hold
null, or both hold live objects whose payloads are equal. -/
theorem C6_value_ptr_deep_copy (s : State) (o : Obj) (v2 : Nat) :
    ((vpA s o).2.m_p = some s.next
     ∧ (vpB s o).2.m_p = some (s.next + 1)
     ∧ s.next ≠ s.next + 1
     ∧ (vpB s o).1.heap s.next = some o
     ∧ (vpB s o).1.heap (s.next + 1) = some o
     ∧ value_ptr.eq (vpB s o).1 (vpA s o).2 (vpB s o).2 = true)
    ∧ ((value_ptr.mutate (vpB s o).1 (vpA s o).2 v2).heap (s.next + 1) = some o
       ∧ (value_ptr.mutate (vpB s o).1 (vpA s o).2 v2).heap s.next
           = some { o with val := v2 }
       ∧ (value_ptr.mutate (vpB s o).1 (vpB s o).2 v2).heap s.next = some o)
    ∧ value_ptr.copyCtor s ⟨none⟩ = (s, ⟨none⟩)
    ∧ (∀ x y : value_ptr, value_ptr.eq s x y = true ↔
        ((x.m_p = none ∧ y.m_p = none)
         ∨ (∃ (a b : Nat) (oa ob : Obj), x.m_p = some a ∧ y.m_p = some b
             ∧ s.heap a = some oa ∧ s.heap b = some ob ∧ oa.val = ob.val))) := by
  have h01 : ¬ s.next + 1 = s.next := by omega
  have h10 : ¬ s.next = s.next + 1 := by omega
  have hA : vpA s o = ({ heap := fun b => if b = s.next then some o else s.heap b,
                         next := s.next + 1, freed := s.freed }, ⟨some s.next⟩) := rfl
  have hA1 : (vpA s o).1.heap s.next = some o := by
    rw [hA]
    simp
  have hB : vpB s o
      = ({ heap := fun b => if b = s.next + 1 then some o
             else if b = s.next then some o else s.heap b,
           next := s.next + 2, freed := s.freed }, ⟨some (s.next + 1)⟩) := by
    unfold vpB value_ptr.copyCtor
    rw [hA]
    simp [State.alloc]
  refine ⟨⟨rfl, ?_, by omega, ?_, ?_, ?_⟩, ⟨?_, ?_, ?_⟩, rfl, ?_⟩
  · rw [hB]
  · rw [hB]
    simp [h10]
  · rw [hB]
    simp
  · rw [hB, hA]
    unfold value_ptr.eq
    simp [h10, h01]
  · rw [hB, hA]
    unfold value_ptr.mutate
    simp [h10, State.write, h01]
  · rw [hB, hA]
    unfold value_ptr.mutate
    simp [h10, State.write]
  · rw [hB]
    unfold value_ptr.mutate
    simp [h10, State.write, h01]
  · intro x y
    obtain ⟨px⟩ := x
    obtain ⟨py⟩ := y
    cases px with
    | none =>
      cases py with
      | none => simp [value_ptr.eq]
      | some b => simp [value_ptr.eq]
    | some a =>
      cases py with
      | none => simp [value_ptr.eq]
      | some b =>
        simp only [value_ptr.eq]
        cases hx : s.heap a with
        | none => simp [hx]
        | some oa =>
          cases hy : s.heap b with
          | none => simp [hx, hy]
          | some ob =>
            simp [hx, hy, beq_iff_eq]

theorem C6_witness :
    ((vpA initState ⟨5, 0⟩).2.m_p = some 0
     ∧ (vpB initState ⟨5, 0⟩).2.m_p = some 1
     ∧ (0 : Nat) ≠ 1
     ∧ (vpB initState ⟨5, 0⟩).1.heap 0 = some ⟨5, 0⟩
     ∧ (vpB initState ⟨5, 0⟩).1.heap 1 = some ⟨5, 0⟩
     ∧ value_ptr.eq (vpB initState ⟨5, 0⟩).1 (vpA initState ⟨5, 0⟩).2
         (vpB initState ⟨5, 0⟩).2 = true)
    ∧ ((value_ptr.mutate (vpB initState ⟨5, 0⟩).1 (vpA initState ⟨5, 0⟩).2 8).heap 1
         = some ⟨5, 0⟩
       ∧ (value_ptr.mutate (vpB initState ⟨5, 0⟩).1 (vpA initState ⟨5, 0⟩).2 8).heap 0
           = some ⟨8, 0⟩
       ∧ (value_ptr.mutate (vpB initState ⟨5, 0⟩).1 (vpB initState ⟨5, 0⟩).2 8).heap 0
           = some ⟨5, 0⟩)
    ∧ value_ptr.copyCtor initState ⟨none⟩ = (initState, ⟨none⟩)
    ∧ (∀ x y : value_ptr, value_ptr.eq initState x y = true ↔
        ((x.m_p = none ∧ y.m_p = none)
         ∨ (∃ (a b : Nat) (oa ob : Obj), x.m_p = some a ∧ y.m_p = some b
             ∧ initState.heap a = some oa ∧ initState.heap b = some ob
             ∧ oa.val = ob.val))) :=
  C6_value_ptr_deep_copy initState ⟨5, 0⟩ 8

/-- C7: assignment.  For `counted_ptr`: self-assignment (`this == &rhs`)
returns store and wrapper untouched; between distinct instances whose
pointers differ, the effect is exactly release-then-share — the old object
goes through the release step (decrement, delete on reaching 0, both
characterized in C3's theorem) and the wrapper adopts the right-hand pointer,
incrementing the adopted object's count (or adopts null when the right-hand
side holds null); between distinct instances with equal pointers nothing
changes at all.  For `value_ptr`: self-assignment is a no-op, and otherwise
the right-hand object is deep-copied *before* the left-hand object is freed,
so even when the two wrappers alias one address the copy is built from the
still-live object and survives the free. -/
theorem C7_assignment (s : State) (lhs rhs : counted_ptr)
    (vl vr : value_ptr) (a b : Nat) (oa ob : Obj) :
    counted_ptr.assign s lhs rhs true = (s, lhs)
    ∧ (lhs.m_p = rhs.m_p → counted_ptr.assign s lhs rhs false = (s, lhs))
    ∧ (lhs.m_p ≠ rhs.m_p → rhs.m_p = none →
        counted_ptr.assign s lhs rhs false
          = (counted_ptr.releaseHeld s lhs, ⟨none⟩))
    ∧ (lhs.m_p ≠ rhs.m_p → rhs.m_p = some b →
        (counted_ptr.releaseHeld s lhs).heap b = some ob →
        counted_ptr.assign s lhs rhs false
          = ((counted_ptr.releaseHeld s lhs).write b
               { ob with m_referenceCount := ob.m_referenceCount + 1 },
             ⟨some b⟩))
    ∧ value_ptr.assign s vl vl true = (s, vl)
    ∧ (vl.m_p = some a → vr.m_p = some b → s.heap a = some oa →
        s.heap b = some ob → (∀ c, s.next ≤ c → s.heap c = none) →
        (value_ptr.assign s vl vr false).2 = ⟨some s.next⟩
        ∧ (value_ptr.assign s vl vr false).1.heap s.next = some ob
        ∧ (value_ptr.assign s vl vr false).1.heap a = none
        ∧ (value_ptr.assign s vl vr false).1.freed = s.freed ++ [a]) := by
  refine ⟨rfl, ?_, ?_, ?_, ?_, ?_⟩
  · intro h
    exact assign_alias_shape s lhs rhs h
  · intro h h2
    exact assign_fromNull_shape s lhs rhs h h2
  · intro h h2 h3
    exact assign_share_shape s lhs rhs b ob h h2 h3
  · unfold value_ptr.assign
    simp
  · intro hvl hvr ha hb hfresh
    have han : a < s.next := by
      by_contra hc
      have h2 := hfresh a (Nat.le_of_not_lt hc)
      rw [ha] at h2
      exact Option.noConfusion h2
    obtain ⟨pl⟩ := vl
    obtain ⟨pr⟩ := vr
    simp only [value_ptr.m_p] at hvl hvr
    subst hvl
    subst hvr
    unfold value_ptr.assign
    simp only [hb, State.alloc, State.free]
    have hna : ¬ s.next = a := by omega
    refine ⟨rfl, ?_, by simp, rfl⟩
    simp [hna]

theorem C7_witness :
    counted_ptr.assign sWa ⟨some 0⟩ ⟨none⟩ true = (sWa, ⟨some 0⟩)
    ∧ ((⟨some 0⟩ : counted_ptr).m_p = (⟨none⟩ : counted_ptr).m_p →
        counted_ptr.assign sWa ⟨some 0⟩ ⟨none⟩ false = (sWa, ⟨some 0⟩))
    ∧ ((⟨some 0⟩ : counted_ptr).m_p ≠ (⟨none⟩ : counted_ptr).m_p →
        (⟨none⟩ : counted_ptr).m_p = none →
        counted_ptr.assign sWa ⟨some 0⟩ ⟨none⟩ false
          = (counted_ptr.releaseHeld sWa ⟨some 0⟩, ⟨none⟩))
    ∧ ((⟨some 0⟩ : counted_ptr).m_p ≠ (⟨none⟩ : counted_ptr).m_p →
        (⟨none⟩ : counted_ptr).m_p = some 0 →
        (counted_ptr.releaseHeld sWa ⟨some 0⟩).heap 0
            = some { val := 7, m_referenceCount := 2 } →
        counted_ptr.assign sWa ⟨some 0⟩ ⟨none⟩ false
          = ((counted_ptr.releaseHeld sWa ⟨some 0⟩).write 0
               { val := 7, m_referenceCount := 3 }, ⟨some 0⟩))
    ∧ value_ptr.assign sWa ⟨some 0⟩ ⟨some 0⟩ true = (sWa, ⟨some 0⟩)
    ∧ ((⟨some 0⟩ : value_ptr).m_p = some 0 →
        (⟨some 0⟩ : value_ptr).m_p = some 0 →
        sWa.heap 0 = some { val := 7, m_referenceCount := 2 } →
        sWa.heap 0 = some { val := 7, m_referenceCount := 2 } →
        (∀ c, sWa.next ≤ c → sWa.heap c = none) →
        (value_ptr.assign sWa ⟨some 0⟩ ⟨some 0⟩ false).2 = ⟨some 1⟩
        ∧ (value_ptr.assign sWa ⟨some 0⟩ ⟨some 0⟩ false).1.heap 1
            = some { val := 7, m_referenceCount := 2 }
        ∧ (value_ptr.assign sWa ⟨some 0⟩ ⟨some 0⟩ false).1.heap 0 = none
        ∧ (value_ptr.assign sWa ⟨some 0⟩ ⟨some 0⟩ false).1.freed
            = sWa.freed ++ [0]) :=
  C7_assignment sWa ⟨some 0⟩ ⟨none⟩ ⟨some 0⟩ ⟨some 0⟩ 0 0
    { val := 7, m_referenceCount := 2 } { val := 7, m_referenceCount := 2 }

/-- C8: with a shared object (count greater than 1) at `a`, the non-const
`operator->` calls the mutable `get()` and therefore triggers the
copy-on-write clone — it returns the fresh clone's address, not `a` — while
the non-const `operator*` hands out a mutable reference to the shared object
itself without any state change, so a mutation through that reference is
observed (via const access) by every other wrapper sharing the object. -/
theorem C8_arrow_clones_star_shares (s : State) (a : Nat) (o : Obj) (v2 : Nat)
    (ha : s.heap a = some o) (h2 : o.m_referenceCount > 1)
    (hfresh : ∀ b, s.next ≤ b → s.heap b = none) :
    counted_ptr.arrow s ⟨some a⟩ = counted_ptr.get s ⟨some a⟩
    ∧ (counted_ptr.arrow s ⟨some a⟩).2.2 = some s.next
    ∧ s.next ≠ a
    ∧ counted_ptr.starMut ⟨some a⟩ = some a
    ∧ counted_ptr.mutateThroughStar s ⟨some a⟩ v2
        = s.write a { o with val := v2 }
    ∧ (∀ w2 : counted_ptr, w2.m_p = some a →
        counted_ptr.starConst (counted_ptr.mutateThroughStar s ⟨some a⟩ v2) w2
          = some { o with val := v2 }) := by
  have han : a < s.next := by
    by_contra hc
    have hx := hfresh a (Nat.le_of_not_lt hc)
    rw [ha] at hx
    exact Option.noConfusion hx
  refine ⟨rfl, ?_, by omega, rfl, ?_, ?_⟩
  · show (counted_ptr.get s ⟨some a⟩).2.2 = some s.next
    rw [get_cow_shape s a o ha h2]
  · unfold counted_ptr.mutateThroughStar
    simp [ha]
  · intro w2 hw2
    obtain ⟨p⟩ := w2
    simp only [counted_ptr.m_p] at hw2
    subst hw2
    unfold counted_ptr.starConst counted_ptr.mutateThroughStar
    simp [ha, State.write]

theorem C8_witness :
    counted_ptr.arrow sWa ⟨some 0⟩ = counted_ptr.get sWa ⟨some 0⟩
    ∧ (counted_ptr.arrow sWa ⟨some 0⟩).2.2 = some 1
    ∧ (1 : Nat) ≠ 0
    ∧ counted_ptr.starMut ⟨some 0⟩ = some 0
    ∧ counted_ptr.mutateThroughStar sWa ⟨some 0⟩ 3
        = sWa.write 0 { val := 3, m_referenceCount := 2 }
    ∧ (∀ w2 : counted_ptr, w2.m_p = some 0 →
        counted_ptr.starConst (counted_ptr.mutateThroughStar sWa ⟨some 0⟩ 3) w2
          = some { val := 3, m_referenceCount := 2 }) :=
  C8_arrow_clones_star_shares sWa 0 { val := 7, m_referenceCount := 2 } 3 rfl
    (by decide)
    (fun b hb => by
      have hb1 : 1 ≤ b := hb
      have hb0 : ¬ b = 0 := by omega
      simp [sWa, hb0])

/-- Characterization of the `resize` transfer loop after `k` iterations:
nothing is freed, the first `k` new slots carry the old pointers, and the
first `k` old slots have been nulled by `release`. -/
theorem resize_loop (s : State) (slots : List (Option Nat)) (newSize : Nat)
    (k : Nat) (hk : k ≤ min slots.length newSize) :
    (List.range k).foldl resizeStep (s, List.replicate newSize none, slots)
      = (s, slots.take k ++ List.replicate (newSize - k) none,
         List.replicate k none ++ slots.drop k) := by
  induction k with
  | zero => simp
  | succ k ih =>
    rw [List.range_succ, List.foldl_append, ih (by omega)]
    have hkl : k < slots.length := by omega
    have hkn : k < newSize := by omega
    have htk : (slots.take k).length = k := by
      rw [List.length_take]
      omega
    have h1 : (List.replicate k none ++ slots.drop k).getD k none
        = slots.getD k none := by
      rw [List.getD_eq_getElem?_getD, List.getD_eq_getElem?_getD,
        List.getElem?_append]
      simp [List.getElem?_drop]
    have h2 : (slots.take k ++ List.replicate (newSize - k) none).getD k none
        = none := by
      rw [List.getD_eq_getElem?_getD, List.getElem?_append, htk,
        if_neg (lt_irrefl k), Nat.sub_self, List.getElem?_replicate]
      by_cases h : 0 < newSize - k
      · rw [if_pos h]
        rfl
      · rw [if_neg h]
        rfl
    have hsk : slots[k]? = some (slots.getD k none) := by
      rw [List.getD_eq_getElem?_getD, List.getElem?_eq_getElem hkl]
      rfl
    have h3 : (slots.take k ++ List.replicate (newSize - k) none).set k
          (slots.getD k none)
        = slots.take (k + 1) ++ List.replicate (newSize - (k + 1)) none := by
      rw [List.set_append, htk]
      simp only [lt_irrefl, if_neg, Nat.sub_self]
      have hrep : newSize - k = (newSize - (k + 1)) + 1 := by omega
      rw [hrep, List.replicate_succ, List.set_cons_zero, List.take_succ, hsk]
      simp
    have h4 : (List.replicate k none ++ slots.drop k).set k none
        = List.replicate (k + 1) none ++ slots.drop (k + 1) := by
      rw [List.set_append, List.length_replicate]
      simp only [lt_irrefl, if_neg, Nat.sub_self]
      rw [List.drop_eq_getElem_cons hkl, List.set_cons_zero,
        List.replicate_succ', List.append_assoc]
      rfl
    show resizeStep (s, slots.take k ++ List.replicate (newSize - k) none,
        List.replicate k none ++ slots.drop k) k = _
    unfold resizeStep
    dsimp only
    rw [h2, h1, h3, h4]

/-- Running `delete` over a list of addresses appends them to the log. -/
theorem foldl_free_freed (L : List Nat) (s : State) :
    (L.foldl State.free s).freed = s.freed ++ L := by
  induction L generalizing s with
  | nil => simp
  | cons a L ih => simp [State.free, ih]

/-- The old slot array after the loop, reversed for array destruction order
and with empty slots skipped, is exactly the dropped suffix's pointers. -/
theorem resize_dropped (slots : List (Option Nat)) (newSize : Nat) :
    ((List.replicate (min slots.length newSize) none
        ++ slots.drop (min slots.length newSize)).reverse.filterMap id)
      = (slots.drop newSize).reverse.filterMap id := by
  have hdrop : slots.drop (min slots.length newSize) = slots.drop newSize := by
    rcases le_total newSize slots.length with h | h
    · rw [min_eq_right h]
    · rw [min_eq_left h, List.drop_length, List.drop_eq_nil_of_le h]
  rw [hdrop, List.reverse_append, List.filterMap_append, List.reverse_replicate]
  simp

/-- C4: `resize(newSize)` makes the container's size `newSize`; every index
below both sizes holds in the new array exactly the raw pointer the old slot
held (pointer identity — ownership moved by `release`/`reset`, nothing
cloned, and the loop itself frees nothing); new slots past the old size start
empty; the `delete` log grows by exactly the pointers of the old slots at
indices `newSize` and beyond (freed when the old array is destroyed); and
when those pointers are distinct and not already freed, each of them appears
in the log exactly once. -/
theorem C4_resize (s : State) (v : vector_member_ptrs) (newSize : Nat) :
    ((vector_member_ptrs.resize s v newSize).2.size = newSize)
    ∧ (∀ i, i < min v.slots.length newSize →
        (vector_member_ptrs.resize s v newSize).2.slots.getD i none
          = v.slots.getD i none)
    ∧ (∀ i, v.slots.length ≤ i → i < newSize →
        (vector_member_ptrs.resize s v newSize).2.slots.getD i none = none)
    ∧ ((vector_member_ptrs.resize s v newSize).1.freed
        = s.freed ++ (v.slots.drop newSize).reverse.filterMap id)
    ∧ (∀ q, q ∈ (v.slots.drop newSize).filterMap id →
        ((v.slots.drop newSize).filterMap id).Nodup → q ∉ s.freed →
        (vector_member_ptrs.resize s v newSize).1.freed.count q = 1) := by
  have hres : vector_member_ptrs.resize s v newSize
      = (((List.replicate (min v.slots.length newSize) none
            ++ v.slots.drop (min v.slots.length newSize)).reverse.filterMap
              id).foldl State.free s,
         ⟨v.slots.take (min v.slots.length newSize)
            ++ List.replicate (newSize - min v.slots.length newSize) none⟩) := by
    unfold vector_member_ptrs.resize
    dsimp only
    rw [resize_loop s v.slots newSize (min v.slots.length newSize) le_rfl]
  have htk : (v.slots.take (min v.slots.length newSize)).length
      = min v.slots.length newSize := by
    rw [List.length_take]
    exact min_eq_left (min_le_left _ _)
  have hfreed : (vector_member_ptrs.resize s v newSize).1.freed
      = s.freed ++ (v.slots.drop newSize).reverse.filterMap id := by
    rw [hres]
    simp only [resize_dropped]
    rw [foldl_free_freed]
  refine ⟨?_, ?_, ?_, hfreed, ?_⟩
  · rw [hres]
    show (v.slots.take (min v.slots.length newSize)
        ++ List.replicate (newSize - min v.slots.length newSize) none).length
      = newSize
    rw [List.length_append, htk, List.length_replicate]
    omega
  · intro i hi
    rw [hres]
    show (v.slots.take (min v.slots.length newSize)
        ++ List.replicate (newSize - min v.slots.length newSize) none).getD i none
      = v.slots.getD i none
    rw [List.getD_eq_getElem?_getD, List.getD_eq_getElem?_getD,
      List.getElem?_append, htk, if_pos hi, List.getElem?_take, if_pos hi]
  · intro i hni hin
    rw [hres]
    show (v.slots.take (min v.slots.length newSize)
        ++ List.replicate (newSize - min v.slots.length newSize) none).getD i none
      = none
    have hik : ¬ i < min v.slots.length newSize := by omega
    have hir : i - min v.slots.length newSize
        < newSize - min v.slots.length newSize := by omega
    rw [List.getD_eq_getElem?_getD, List.getElem?_append, htk, if_neg hik,
      List.getElem?_replicate, if_pos hir]
    rfl
  · intro q hq hnd hqf
    rw [hfreed, List.count_append]
    have h0 : s.freed.count q = 0 := List.count_eq_zero_of_not_mem hqf
    have h1 : ((v.slots.drop newSize).reverse.filterMap id).count q = 1 := by
      rw [List.filterMap_reverse, List.count_reverse]
      exact List.count_eq_one_of_mem hnd hq
    omega

/-- Witness container for the resize claim: three occupied slots. -/
def vW : vector_member_ptrs := ⟨[some 10, some 11, some 12]⟩

theorem C4_witness :
    ((vector_member_ptrs.resize initState vW 1).2.size = 1)
    ∧ (∀ i, i < min vW.slots.length 1 →
        (vector_member_ptrs.resize initState vW 1).2.slots.getD i none
          = vW.slots.getD i none)
    ∧ (∀ i, vW.slots.length ≤ i → i < 1 →
        (vector_member_ptrs.resize initState vW 1).2.slots.getD i none = none)
    ∧ ((vector_member_ptrs.resize initState vW 1).1.freed
        = initState.freed ++ (vW.slots.drop 1).reverse.filterMap id)
    ∧ (∀ q, q ∈ (vW.slots.drop 1).filterMap id →
        ((vW.slots.drop 1).filterMap id).Nodup → q ∉ initState.freed →
        (vector_member_ptrs.resize initState vW 1).1.freed.count q = 1) :=
  C4_resize initState vW 1

end SmartPtr
